import Mathlib

/-!
# KubeSim control plane — shallow embedding and verification

This file embeds the scheduling and lifecycle engine of the KubeSim
control plane (`src/app.py`) and its worker agent (`src/node_manager.py`)
as executable Lean definitions, and proves or refutes the frozen claims
about them.

Modelling conventions:
* Python dicts are association lists in insertion order (`alookup`,
  `aset`, `aserase` below reproduce `d[k]`, `d[k] = v`, `del d[k]`).
* Node identifiers `"node_<N>"` are represented by their numeric suffix
  `N : Nat`; the source parses the suffix with `int(x.split('_')[1])`
  wherever it compares ids numerically.
* CPU quantities are `Int` (Python ints; `available` can in principle go
  negative, so `Nat` would be unfaithful).
* Network transport is modelled on its deterministic happy path: a worker
  answers every request, accepting or rejecting by its own capacity
  check.  Transport failures in the source leave the placement state
  untouched and only change the HTTP status, so they do not affect the
  state-level claims proved here.
-/

namespace KubeSim

/-! ## Association lists: Python `dict` in insertion order -/

/-- `d.get(k)` / `k in d` on a Python dict. -/
def alookup {α β : Type} [DecidableEq α] (k : α) : List (α × β) → Option β
  | [] => none
  | (k2, v) :: rest => if k2 = k then some v else alookup k rest

/-- `d[k] = v`: update in place when the key exists, append otherwise. -/
def aset {α β : Type} [DecidableEq α] (k : α) (v : β) : List (α × β) → List (α × β)
  | [] => [(k, v)]
  | (k2, v2) :: rest => if k2 = k then (k, v) :: rest else (k2, v2) :: aset k v rest

/-- `del d[k]` (no error if absent; the source always guards with `in`). -/
def aerase {α β : Type} [DecidableEq α] (k : α) : List (α × β) → List (α × β)
  | [] => []
  | (k2, v2) :: rest => if k2 = k then rest else (k2, v2) :: aerase k rest

/-! ## Scheduler (`find_node_for_pod`, src/app.py:501-624) -/

/-- One entry of the `node_allocations` dict built before each scheduling
decision: `{"allocated": .., "capacity": .., "available": capacity - allocated}`. -/
structure Alloc where
  allocated : Int
  capacity : Int
  available : Int
deriving DecidableEq, Repr

abbrev AllocList := List (Nat × Alloc)

/-- The candidate filter `alloc_data["available"] >= cpu_request`. -/
def fitsB (req : Int) (a : Alloc) : Bool := req ≤ a.available

/-- first-fit: scan the allocation dict in insertion order, return the
first node whose `available` covers the request (src/app.py:515-521). -/
def findFirstFit (req : Int) : AllocList → Option Nat
  | [] => none
  | (nid, a) :: rest => if req ≤ a.available then some nid else findFirstFit req rest

/-- Ascending numeric node-id suffix, the sort key
`int(x.split('_')[1])` used by best-fit (src/app.py:529). -/
def suffixLe (p q : Nat × Alloc) : Prop := p.1 ≤ q.1

instance : DecidableRel suffixLe := fun p q => inferInstanceAs (Decidable (p.1 ≤ q.1))

instance : IsTotal (Nat × Alloc) suffixLe := ⟨fun p q => Nat.le_total p.1 q.1⟩

instance : IsTrans (Nat × Alloc) suffixLe := ⟨fun _ _ _ h h2 => Nat.le_trans h h2⟩

/-- Best-fit first pass (src/app.py:534-545): walk the suffix-sorted
nodes keeping the first node seen with strictly smallest
`remaining = available - cpu_request` among the fitting ones. -/
def bfScan (req : Int) : AllocList → Option (Nat × Alloc) → Option (Nat × Alloc)
  | [], acc => acc
  | (nid, a) :: rest, acc =>
    if req ≤ a.available then
      match acc with
      | none => bfScan req rest (some (nid, a))
      | some (b, ba) =>
        if a.available - req < ba.available - req then bfScan req rest (some (nid, a))
        else bfScan req rest (some (b, ba))
    else bfScan req rest acc

/-- `max([best_fit] + tied_nodes, key=capacity)` (src/app.py:563-566):
Python `max` keeps the earliest element on key ties, i.e. it only
replaces the current pick on a strictly greater capacity. -/
def maxCapScan : AllocList → (Nat × Alloc) → (Nat × Alloc)
  | [], c => c
  | p :: rest, c => if p.2.capacity > c.2.capacity then maxCapScan rest p else maxCapScan rest c

/-- The tied nodes collected in the best-fit tie-break pass
(src/app.py:549-559): every suffix-sorted node other than the first-pass
pick that fits and has the same remaining capacity. -/
def bfTied (req : Int) (sorted : AllocList) (best : Nat) (sm : Int) : AllocList :=
  sorted.filter (fun p => p.1 != best && fitsB req p.2 && (p.2.available - req == sm))

/-- best-fit (src/app.py:523-579), including the literal
`node_2`-over-`node_1` special case at src/app.py:568-575. -/
def bestFitFind (req : Int) (allocs : AllocList) : Option Nat :=
  let sorted := List.insertionSort suffixLe allocs
  match bfScan req sorted none with
  | none => none
  | some (best, ba) =>
    let sm := ba.available - req
    let tied := bfTied req sorted best sm
    if tied.isEmpty then some best
    else
      let highest := maxCapScan tied (best, ba)
      if tied.any (fun p => p.1 == 2) && (best == 1) then some 2
      else if highest.1 ≠ best then some highest.1
      else some best

/-- The worst-fit pre-sort (src/app.py:587-591):
`sorted(items, key=lambda x: (x[1]["available"], -suffix), reverse=True)`
orders by descending `available`, then ascending suffix. -/
def worstRel (p q : Nat × Alloc) : Prop :=
  q.2.available < p.2.available ∨ (p.2.available = q.2.available ∧ p.1 ≤ q.1)

instance : DecidableRel worstRel := fun p q =>
  inferInstanceAs (Decidable (_ ∨ _ ∧ _))

instance : IsTotal (Nat × Alloc) worstRel where
  total p q := by
    rcases lt_trichotomy p.2.available q.2.available with h | h | h
    · exact Or.inr (Or.inl h)
    · rcases Nat.le_total p.1 q.1 with h2 | h2
      · exact Or.inl (Or.inr ⟨h, h2⟩)
      · exact Or.inr (Or.inr ⟨h.symm, h2⟩)
    · exact Or.inl (Or.inl h)

instance : IsTrans (Nat × Alloc) worstRel where
  trans p q r h1 h2 := by
    rcases h1 with h1 | ⟨he1, hn1⟩
    · rcases h2 with h2 | ⟨he2, _⟩
      · exact Or.inl (h2.trans h1)
      · exact Or.inl (he2 ▸ h1)
    · rcases h2 with h2 | ⟨he2, hn2⟩
      · exact Or.inl (he1 ▸ h2)
      · exact Or.inr ⟨he1.trans he2, hn1.trans hn2⟩

/-- worst-fit scan (src/app.py:595-618) over the pre-sorted nodes:
`largest_remaining` starts at `-1` with no pick (`acc = none`);
a strictly larger remaining wins, an equal remaining wins only for a
strictly smaller numeric suffix. -/
def wfScan (req : Int) : AllocList → Option (Nat × Int) → Option (Nat × Int)
  | [], acc => acc
  | (nid, a) :: rest, acc =>
    if req ≤ a.available then
      let rem := a.available - req
      match acc with
      | none => if rem > -1 then wfScan req rest (some (nid, rem)) else wfScan req rest none
      | some (w, lr) =>
        if rem > lr then wfScan req rest (some (nid, rem))
        else if rem = lr ∧ nid < w then wfScan req rest (some (nid, rem))
        else wfScan req rest (some (w, lr))
    else wfScan req rest acc

/-- worst-fit (src/app.py:581-622). -/
def worstFitFind (req : Int) (allocs : AllocList) : Option Nat :=
  ((wfScan req (List.insertionSort worstRel allocs) none).map Prod.fst)

/-- `SCHEDULING_ALGO` config values. -/
inductive Algo where
  | firstFit
  | bestFit
  | worstFit
deriving DecidableEq, Repr

/-- The configuration read from `config.json` (src/app.py:15-25). -/
structure Config where
  AUTO_SCALE : Bool
  SCHEDULING_ALGO : Algo
  DEFAULT_NODE_CAPACITY : Int
deriving DecidableEq, Repr

/-- `find_node_for_pod` (src/app.py:501-624): dispatch on the configured
policy.  The `pod_id` argument of the source is used only for logging. -/
def find_node_for_pod (cfg : Config) (req : Int) (allocs : AllocList) : Option Nat :=
  match cfg.SCHEDULING_ALGO with
  | .firstFit => findFirstFit req allocs
  | .bestFit => bestFitFind req allocs
  | .worstFit => worstFitFind req allocs

/-! ## Cluster state

Mirrors the process-wide dicts of src/app.py (`nodes`, `cached_status`,
`pending_pods`, `node_counter`) plus, per node, the worker agent's own
`pods` dict and `NODE_CAPACITY` (src/node_manager.py:43,193). -/

/-- One `cached_status[node][pod]` record (src/app.py:31,746-750). -/
structure PodStat where
  cpu_request : Int
  cpu_usage : Int
  healthy : Bool
deriving DecidableEq, Repr

/-- One `nodes[node_id]` record (src/app.py:30,474-479); the Docker
container handle is opaque and omitted. -/
structure NodeData where
  last_heartbeat : Int
  pod_health : List (String × Bool)
  capacity : Int
deriving DecidableEq, Repr

/-- One `pending_pods[pod_id]` record (src/app.py:35,209-213). -/
structure PendingInfo where
  cpu_request : Int
  origin_node : Nat
  timestamp : Int
deriving DecidableEq, Repr

/-- A worker agent's state: its `NODE_CAPACITY` environment value and its
`pods` dict restricted to the `cpu_request` field
(src/node_manager.py:43,193; threads and health flags do not affect the
capacity accounting). -/
structure Worker where
  capacity : Int
  pods : List (String × Int)
deriving DecidableEq, Repr

/-- The whole control plane plus worker fleet. -/
structure ClusterState where
  nodes : List (Nat × NodeData)
  cachedStatus : List (Nat × List (String × PodStat))
  pendingPods : List (String × PendingInfo)
  nodeCounter : Nat
  workers : List (Nat × Worker)
deriving DecidableEq, Repr

/-- Σ cpu_request over a worker's pods dict (src/node_manager.py:198). -/
def sumRequests (pods : List (String × Int)) : Int := (pods.map (fun p => p.2)).sum

/-! ## Worker agent endpoints (src/node_manager.py) -/

/-- Worker `/add-pod` (src/node_manager.py:179-230): reject a
non-positive request, reject when `total_allocated + cpu_request`
would exceed `NODE_CAPACITY`, otherwise record the pod. -/
def workerAddPod (w : Worker) (pod_id : String) (req : Int) : Option Worker :=
  if req ≤ 0 then none
  else if sumRequests w.pods + req > w.capacity then none
  else some { w with pods := aset pod_id req w.pods }

/-- Worker `/delete-pod` (src/node_manager.py:232-248): 404 when the pod
is unknown, otherwise drop it. -/
def workerDeletePod (w : Worker) (pod_id : String) : Option Worker :=
  match alookup pod_id w.pods with
  | some _ => some { w with pods := aerase pod_id w.pods }
  | none => none

/-! ## Placement snapshot (src/app.py:662-683 and the three identical
copies in `reschedule_pod`, `remove_node`, `check_pending_pods`) -/

/-- Allocation entry for one node: capacity from the registry, allocated
= Σ `cpu_request` over the node's `cached_status` pods. -/
def nodeAlloc (s : ClusterState) (nid : Nat) (nd : NodeData) : Alloc :=
  let pods := (alookup nid s.cachedStatus).getD []
  let total := (pods.map (fun p => p.2.cpu_request)).sum
  ⟨total, nd.capacity, nd.capacity - total⟩

/-- The `node_allocations` dict, in `nodes` iteration order. -/
def computeAllocations (s : ClusterState) : AllocList :=
  s.nodes.map (fun p => (p.1, nodeAlloc s p.1 p.2))

/-! ## Placement commit -/

/-- POST `/add-pod` to the chosen node and, on HTTP 200, record the pod in
`cached_status` with `cpu_usage = 0, healthy = True`
(src/app.py:726-750).  `none` when the worker rejects (its capacity
check fails) or the node's worker is gone. -/
def commitPlace (s : ClusterState) (nid : Nat) (pod_id : String) (req : Int) :
    Option ClusterState :=
  match alookup nid s.workers with
  | none => none
  | some w =>
    match workerAddPod w pod_id req with
    | none => none
    | some w2 =>
      some { s with
        workers := aset nid w2 s.workers,
        cachedStatus :=
          aset nid (aset pod_id ⟨req, 0, true⟩ ((alookup nid s.cachedStatus).getD []))
            s.cachedStatus }

/-! ## Node addition (src/app.py:403-499) -/

/-- The registry part of `add_node`: bump `node_counter`, run a
container with `NODE_CAPACITY = cores`, record the node with
`last_heartbeat = now` and empty `pod_health`.  The pending-queue drain
that follows in the endpoint (src/app.py:485) is `check_pending_pods`
below; the full endpoint is `add_node`. -/
def addNodeBasic (now : Int) (s : ClusterState) (cores : Int) : ClusterState × Nat :=
  let nid := s.nodeCounter + 1
  ({ s with
      nodes := s.nodes ++ [(nid, ⟨now, [], cores⟩)],
      workers := s.workers ++ [(nid, ⟨cores, []⟩)],
      nodeCounter := nid }, nid)

/-! ## Rescheduling one pod (src/app.py:897-1031) -/

/-- The first node of `cached_status` currently holding `pod_id`
(src/app.py:284-291): how the source discovers where a rescheduled pod
landed. -/
def findPodNode (pid : String) : List (Nat × List (String × PodStat)) → Option Nat
  | [] => none
  | (nid, pods) :: rest =>
    if (alookup pid pods).isSome then some nid else findPodNode pid rest

/-- Running-totals update after a successful reschedule
(src/app.py:292-295): adjust the entry of the node the pod landed on,
if that node is in the running dict. -/
def updateAllocs (allocs : AllocList) (newNode : Option Nat) (req : Int) : AllocList :=
  match newNode with
  | none => allocs
  | some n =>
    allocs.map (fun p =>
      if p.1 = n then (p.1, ⟨p.2.allocated + req, p.2.capacity, p.2.available - req⟩) else p)

/-- Core of `reschedule_pod` (src/app.py:897-1031) as it executes while
the pending-pods lock is held, i.e. when called from inside
`check_pending_pods`: snapshot, schedule, and on `NoFit` with
auto-scaling enabled add a default-capacity node (`add_node` reads
`cores` from the current request's JSON, which carries none), then send
the pod to the target.  One caveat on the auto-scale branch: the
source's nested `add_node` registers the node and then calls
`check_pending_pods`, which re-acquires the non-reentrant
`pending_pods_lock` already held by the outer drain — the request never
returns (deadlock).  No terminating execution of the source runs past
that point, so the model registers the node (which the source has done
by then) and continues without the nested drain. -/
def rescheduleCoreLocked (cfg : Config) (now : Int) (s : ClusterState) (pod_id : String)
    (req : Int) : Bool × ClusterState :=
  let allocs := computeAllocations s
  match find_node_for_pod cfg req allocs with
  | some t =>
    match commitPlace s t pod_id req with
    | some s2 => (true, s2)
    | none => (false, s)
  | none =>
    if cfg.AUTO_SCALE then
      let p := addNodeBasic now s cfg.DEFAULT_NODE_CAPACITY
      match commitPlace p.1 p.2 pod_id req with
      | some s3 => (true, s3)
      | none => (false, p.1)
    else (false, s)

/-- `reschedule_pod` (src/app.py:897-1031) as run under the pending
lock from `check_pending_pods`; the empty-registry auto-scale branch
carries the same deadlock caveat as `rescheduleCoreLocked`. -/
def reschedulePodLocked (cfg : Config) (now : Int) (s : ClusterState) (pod_id : String)
    (req : Int) : Bool × ClusterState :=
  if s.nodes.isEmpty then
    if cfg.AUTO_SCALE then
      rescheduleCoreLocked cfg now (addNodeBasic now s cfg.DEFAULT_NODE_CAPACITY).1
        pod_id req
    else (false, s)
  else rescheduleCoreLocked cfg now s pod_id req

/-! ## Pending-queue drain (src/app.py:323-401) -/

/-- Ascending `cpu_request` over pending entries, the sort key at
src/app.py:358. -/
def pendingLe (p q : String × PendingInfo) : Prop := p.2.cpu_request ≤ q.2.cpu_request

instance : DecidableRel pendingLe := fun p q =>
  inferInstanceAs (Decidable (p.2.cpu_request ≤ q.2.cpu_request))

instance : IsTotal (String × PendingInfo) pendingLe :=
  ⟨fun p q => Int.le_total p.2.cpu_request q.2.cpu_request⟩

instance : IsTrans (String × PendingInfo) pendingLe :=
  ⟨fun _ _ _ h h2 => Int.le_trans h h2⟩

/-- The per-pod loop of `check_pending_pods` (src/app.py:361-395):
skip a pod no running node can fit, otherwise reschedule it, and on
success remember it for dequeueing and update the running totals. -/
def cpLoop (cfg : Config) (now : Int) :
    List (String × PendingInfo) → AllocList → ClusterState → List String →
    ClusterState × List String
  | [], _, s, removed => (s, removed)
  | (pid, info) :: rest, allocs, s, removed =>
    let req := info.cpu_request
    if allocs.any (fun p => fitsB req p.2) then
      let r := reschedulePodLocked cfg now s pid req
      if r.1 then
        cpLoop cfg now rest (updateAllocs allocs (findPodNode pid r.2.cachedStatus) req)
          r.2 (removed ++ [pid])
      else cpLoop cfg now rest allocs r.2 removed
    else cpLoop cfg now rest allocs s removed

/-- `check_pending_pods` (src/app.py:323-401): no-op on an empty queue;
otherwise snapshot allocations, walk the queue in ascending
`cpu_request`, and finally dequeue the successfully placed pods. -/
def check_pending_pods (cfg : Config) (now : Int) (s : ClusterState) : ClusterState :=
  if s.pendingPods.isEmpty then s
  else
    let allocs := computeAllocations s
    let sorted := List.insertionSort pendingLe s.pendingPods
    let r := cpLoop cfg now sorted allocs s []
    { r.1 with pendingPods := r.2.foldl (fun l pid => aerase pid l) r.1.pendingPods }

/-- `add_node` endpoint body after validation (src/app.py:403-499):
register the node, then drain the pending queue. -/
def add_node (cfg : Config) (now : Int) (s : ClusterState) (cores : Int) :
    ClusterState × Nat :=
  let p := addNodeBasic now s cores
  (check_pending_pods cfg now p.1, p.2)

/-- Core of `reschedule_pod` (src/app.py:897-1031) in a lock-free
context — the `remove_node` call sites, where the pending lock is not
held: snapshot, schedule, and on `NoFit` with auto-scaling enabled call
the full `add_node` (src/app.py:944-958), whose `check_pending_pods`
drain runs to completion before the new node id is returned; then send
the pod to the target node. -/
def rescheduleCore (cfg : Config) (now : Int) (s : ClusterState) (pod_id : String)
    (req : Int) : Bool × ClusterState :=
  match find_node_for_pod cfg req (computeAllocations s) with
  | some t =>
    match commitPlace s t pod_id req with
    | some s2 => (true, s2)
    | none => (false, s)
  | none =>
    if cfg.AUTO_SCALE then
      let p := add_node cfg now s cfg.DEFAULT_NODE_CAPACITY
      match commitPlace p.1 p.2 pod_id req with
      | some s3 => (true, s3)
      | none => (false, p.1)
    else (false, s)

/-- `reschedule_pod` (src/app.py:897-1031) in a lock-free context (the
`remove_node` call sites): the empty-registry auto-scale branch
likewise calls the full `add_node` with its pending-queue drain. -/
def reschedule_pod (cfg : Config) (now : Int) (s : ClusterState) (pod_id : String)
    (req : Int) : Bool × ClusterState :=
  if s.nodes.isEmpty then
    if cfg.AUTO_SCALE then
      rescheduleCore cfg now (add_node cfg now s cfg.DEFAULT_NODE_CAPACITY).1 pod_id req
    else (false, s)
  else rescheduleCore cfg now s pod_id req

/-! ## Pod launch (src/app.py:626-772) -/

inductive LaunchResult where
  | success (pod_id : String) (node_id : Nat)
  | failure (http : Nat)
deriving DecidableEq, Repr

/-- `launch_pod` after the empty-registry branch (src/app.py:662-772):
snapshot the allocations, run the scheduler, and on `NoFit` with
auto-scaling enabled add a node — `add_node` reads `cores` from the
*launch* request's JSON, which carries no such field, so the new node
gets `DEFAULT_NODE_CAPACITY` — then target the fresh node directly
without re-running the scheduler, and hand the pod to the worker. -/
def launchCore (cfg : Config) (now : Int) (s1 : ClusterState) (pod_id : String)
    (req : Int) : LaunchResult × ClusterState :=
  match find_node_for_pod cfg req (computeAllocations s1) with
  | some t =>
    match commitPlace s1 t pod_id req with
    | some s2 => (.success pod_id t, s2)
    | none => (.failure 400, s1)
  | none =>
    if cfg.AUTO_SCALE then
      let p := add_node cfg now s1 cfg.DEFAULT_NODE_CAPACITY
      match commitPlace p.1 p.2 pod_id req with
      | some s3 => (.success pod_id p.2, s3)
      | none => (.failure 400, p.1)
    else (.failure 400, s1)

/-- `launch_pod` (src/app.py:626-772): validation, the empty-registry
auto-scale branch, then `launchCore`. -/
def launch_pod (cfg : Config) (now : Int) (s : ClusterState) (pod_id : String)
    (req : Int) : LaunchResult × ClusterState :=
  if req ≤ 0 then (.failure 400, s)
  else if s.nodes.isEmpty then
    if cfg.AUTO_SCALE then
      launchCore cfg now (add_node cfg now s cfg.DEFAULT_NODE_CAPACITY).1 pod_id req
    else (.failure 400, s)
  else launchCore cfg now s pod_id req

/-! ## Pod deletion (src/app.py:819-851) -/

inductive ApiResult where
  | ok
  | err (http : Nat)
deriving DecidableEq, Repr

/-- The worker call of the `delete_pod` endpoint: forward the DELETE to
the worker, mapping a worker rejection to 400. -/
def deletePodSend (s : ClusterState) (nid : Nat) (pod_id : String) (w : Worker) :
    ApiResult × ClusterState :=
  match workerDeletePod w pod_id with
  | some w2 => (.ok, { s with workers := aset nid w2 s.workers })
  | none => (.err 400, s)

/-- `delete_pod` endpoint (src/app.py:819-851): 404 when the node is not
registered; forward to the worker.  It touches neither `cached_status`
nor the pending queue. -/
def delete_pod (s : ClusterState) (nid : Nat) (pod_id : String) :
    ApiResult × ClusterState :=
  match alookup nid s.nodes with
  | none => (.err 404, s)
  | some _ =>
    match alookup nid s.workers with
    | none => (.err 500, s)
    | some w => deletePodSend s nid pod_id w

/-! ## Node removal (src/app.py:141-321) -/

/-- A `{"pod_id": .., "cpu_request": ..}` report entry. -/
structure PodRef where
  pod_id : String
  cpu_request : Int
deriving DecidableEq, Repr

/-- The pods captured from `cached_status[node_id]` before removal
(src/app.py:144-149). -/
def removeNodeDisplaced (s : ClusterState) (nid : Nat) : List (String × Int) :=
  ((alookup nid s.cachedStatus).getD []).map (fun p => (p.1, p.2.cpu_request))

/-- Excise the node: registry entry, cached status, and (the container
being stopped) its worker (src/app.py:151-172). -/
def removeNodeBase (s : ClusterState) (nid : Nat) : ClusterState :=
  { s with
    nodes := aerase nid s.nodes,
    cachedStatus := aerase nid s.cachedStatus,
    workers := aerase nid s.workers }

/-- `max([data["available"] ...], default=0)` (src/app.py:220). -/
def maxAvailOf (allocs : AllocList) : Int :=
  match allocs.map (fun p => p.2.available) with
  | [] => 0
  | x :: xs => xs.foldl max x

/-- Enqueue into `pending_pods` (src/app.py:207-214 etc.). -/
def enqueuePending (now : Int) (s : ClusterState) (pid : String) (req : Int)
    (origin : Nat) : ClusterState :=
  { s with pendingPods := aset pid ⟨req, origin, now⟩ s.pendingPods }

/-- Ascending `cpu_request`, the sort key at src/app.py:247. -/
def reqLe (p q : String × Int) : Prop := p.2 ≤ q.2

instance : DecidableRel reqLe := fun p q => inferInstanceAs (Decidable (p.2 ≤ q.2))

instance : IsTotal (String × Int) reqLe := ⟨fun p q => Int.le_total p.2 q.2⟩

instance : IsTrans (String × Int) reqLe := ⟨fun _ _ _ h h2 => Int.le_trans h h2⟩

/-- The reschedule loop of `remove_node` (src/app.py:252-319): for each
possibly-fit pod in ascending `cpu_request`, check the running totals;
a pod no node can fit — and a pod whose reschedule fails — goes to the
pending queue and the `failed` report; a success is recorded and the
running totals updated. -/
def rnLoop (cfg : Config) (now : Int) (origin : Nat) :
    List (String × Int) → AllocList → ClusterState → List PodRef → List PodRef →
    ClusterState × List PodRef × List PodRef
  | [], _, s, failed, resched => (s, failed, resched)
  | (pid, req) :: rest, allocs, s, failed, resched =>
    if allocs.any (fun p => fitsB req p.2) then
      let r := reschedule_pod cfg now s pid req
      if r.1 then
        rnLoop cfg now origin rest
          (updateAllocs allocs (findPodNode pid r.2.cachedStatus) req)
          r.2 failed (resched ++ [⟨pid, req⟩])
      else
        rnLoop cfg now origin rest allocs (enqueuePending now r.2 pid req origin)
          (failed ++ [⟨pid, req⟩]) resched
    else
      rnLoop cfg now origin rest allocs (enqueuePending now s pid req origin)
        (failed ++ [⟨pid, req⟩]) resched

/-- `remove_node` (src/app.py:141-321).  Returns
`((True, failed_reschedules, rescheduled_pods), state)`; the function
always reports `True` — removal is never aborted. -/
def remove_node (cfg : Config) (now : Int) (s : ClusterState) (nid : Nat) :
    (Bool × List PodRef × List PodRef) × ClusterState :=
  let pods := removeNodeDisplaced s nid
  let s1 := removeNodeBase s nid
  if pods.isEmpty then ((true, [], []), s1)
  else
    let allocs := computeAllocations s1
    if allocs.isEmpty then
      -- no remaining nodes: everything to the pending queue
      let s2 := pods.foldl (fun st p => enqueuePending now st p.1 p.2 nid) s1
      ((true, pods.map (fun p => ⟨p.1, p.2⟩), []), s2)
    else
      let mv := maxAvailOf allocs
      let definite := pods.filter (fun p => mv < p.2)
      let canBe := pods.filter (fun p => ¬ (mv < p.2))
      let s2 := definite.foldl (fun st p => enqueuePending now st p.1 p.2 nid) s1
      let sorted := List.insertionSort reqLe canBe
      let r := rnLoop cfg now nid sorted allocs s2 (definite.map (fun p => ⟨p.1, p.2⟩)) []
      ((true, r.2.1, r.2.2), r.1)

/-- `delete_node` endpoint (src/app.py:853-895): 400 on a missing
`node_id` field, otherwise `remove_node` and an HTTP 200 success
report — the registry is never consulted for existence. -/
def delete_node (cfg : Config) (now : Int) (s : ClusterState) (nid : Option Nat) :
    (Nat × Bool × List PodRef × List PodRef) × ClusterState :=
  match nid with
  | none => ((400, false, [], []), s)
  | some n =>
    let r := remove_node cfg now s n
    ((200, r.1), r.2)

/-! ## Heartbeat (src/app.py:780-796) -/

/-- The JSON body of a heartbeat: `node_id` may be absent (falsy) and
`pod_health` defaults to the empty dict. -/
structure HeartbeatRequest where
  node_id : Option Nat
  pod_health : Option (List (String × Bool))
deriving DecidableEq, Repr

/-- `receive_heartbeat` (src/app.py:780-796): for a registered node set
`last_heartbeat = now` and replace `pod_health` wholesale; 404 and no
state change for an unknown node; 400 on a missing `node_id`. -/
def receive_heartbeat (now : Int) (s : ClusterState) (r : HeartbeatRequest) :
    ApiResult × ClusterState :=
  match r.node_id with
  | none => (.err 400, s)
  | some nid =>
    match alookup nid s.nodes with
    | some nd =>
      (.ok,
        { s with
          nodes := aset nid
            { nd with last_heartbeat := now, pod_health := r.pod_health.getD [] }
            s.nodes })
    | none => (.err 404, s)

/-! ## Metrics poll (src/app.py:42-102) -/

/-- The `cached_status` entry the poll rebuilds for one node from the
worker's reported pods, merged with the node's last-heartbeat
`pod_health` (src/app.py:63-84): a pod reported unhealthy has its
`cpu_usage` overwritten with the sentinel `-1`.  Observed usage values
come from host CPU sampling outside this deterministic model; healthy
pods report 0 here, with only the `-1` override reflected. -/
def pollEntry (nd : NodeData) (w : Worker) : List (String × PodStat) :=
  w.pods.map (fun q =>
    let healthy := (alookup q.1 nd.pod_health).getD true
    (q.1, PodStat.mk q.2 (if healthy then 0 else -1) healthy))

/-- One node's worth of polling: fetch the worker's metrics and replace
the node's `cached_status` entry wholesale. -/
def pollStep (workers : List (Nat × Worker)) (cs : List (Nat × List (String × PodStat)))
    (p : Nat × NodeData) : List (Nat × List (String × PodStat)) :=
  match alookup p.1 workers with
  | none => cs
  | some w => aset p.1 (pollEntry p.2 w) cs

/-- One happy-path tick of `poll_metrics` (src/app.py:42-102): rebuild
every registered node's `cached_status` entry from its worker. -/
def poll_metrics_once (s : ClusterState) : ClusterState :=
  { s with cachedStatus := s.nodes.foldl (pollStep s.workers) s.cachedStatus }

/-! ## The observable step relation

Every state-mutating entry point of the control plane, at the
granularity the claims quantify over ("every placement path"). -/

inductive Step (cfg : Config) : ClusterState → ClusterState → Prop
  | launch (now : Int) (pod_id : String) (req : Int) (s : ClusterState) :
      Step cfg s (launch_pod cfg now s pod_id req).2
  | addNode (now cores : Int) (s : ClusterState) (h : 0 < cores) :
      Step cfg s (add_node cfg now s cores).1
  | removeNode (now : Int) (nid : Nat) (s : ClusterState) :
      Step cfg s (remove_node cfg now s nid).2
  | deletePod (nid : Nat) (pod_id : String) (s : ClusterState) :
      Step cfg s (delete_pod s nid pod_id).2
  | heartbeat (now : Int) (r : HeartbeatRequest) (s : ClusterState) :
      Step cfg s (receive_heartbeat now s r).2
  | poll (s : ClusterState) :
      Step cfg s (poll_metrics_once s)
  | drain (now : Int) (s : ClusterState) :
      Step cfg s (check_pending_pods cfg now s)

/-! ## Invariants -/

/-- A worker respects its capacity: Σ `cpu_request` over its pods is at
most `NODE_CAPACITY`, and every recorded request is non-negative (the
worker rejects non-positive requests on admission). -/
def workerOk (w : Worker) : Prop :=
  sumRequests w.pods ≤ w.capacity ∧ ∀ e ∈ w.pods, 0 ≤ e.2

def workersOk (ws : List (Nat × Worker)) : Prop := ∀ p ∈ ws, workerOk p.2

/-- Claim C1's bound: on every node, the placed pods' requests sum to at
most the node's capacity. -/
def capacityInv (s : ClusterState) : Prop := workersOk s.workers

/-- Registry shape maintained by construction: the `nodes` dict is in
strictly ascending numeric-suffix order (ids are issued by a monotone
counter and dict insertion order is preserved by deletion), and every
issued id is bounded by the counter. -/
def nodesSorted (s : ClusterState) : Prop :=
  s.nodes.Pairwise (fun p q => p.1 < q.1) ∧ ∀ p ∈ s.nodes, p.1 ≤ s.nodeCounter

/-- Each worker's pods dict keys every pod id at most once. -/
def podsKeysNodup (s : ClusterState) : Prop :=
  ∀ p ∈ s.workers, (p.2.pods.map Prod.fst).Nodup

/-- Structural well-formedness preserved by every step. -/
def Wf (s : ClusterState) : Prop := nodesSorted s ∧ podsKeysNodup s

/-! ## The best-fit selection rule as the claim states it -/

/-- Modelled from the claim/spec wording for best-fit (§4.3): the choice
must fit, minimise `remaining = available - cpu_request` over the
fitting candidates, and on a tie prefer the node with higher total
capacity — except that when the tied set is exactly `{node_1, node_2}`
the choice is `node_2`.  This is the claim's rule, written only to be
compared against the source's `bestFitFind`. -/
def bestFitClaimCheck (req : Int) (allocs : AllocList) (c : Nat) : Bool :=
  allocs.any (fun q =>
    q.1 == c && fitsB req q.2 &&
    allocs.all (fun p => !(fitsB req p.2) || decide (q.2.available - req ≤ p.2.available - req)) &&
    (let tiedIds := (allocs.filter (fun p =>
        fitsB req p.2 && (p.2.available - req == q.2.available - req))).map Prod.fst
     if tiedIds = [1, 2] ∨ tiedIds = [2, 1] then c == 2
     else allocs.all (fun p =>
        !(fitsB req p.2 && (p.2.available - req == q.2.available - req)) ||
        decide (p.2.capacity ≤ q.2.capacity))))

/-! ## Concrete fixtures -/

/-- first-fit, no auto-scaling, default capacity 4. -/
def cfgFF : Config := ⟨false, .firstFit, 4⟩

/-- first-fit with auto-scaling enabled, default capacity 4. -/
def cfgAS : Config := ⟨true, .firstFit, 4⟩

/-- worst-fit, no auto-scaling, default capacity 4. -/
def cfgWF : Config := ⟨false, .worstFit, 4⟩

/-- best-fit, no auto-scaling, default capacity 4. -/
def cfgBF : Config := ⟨false, .bestFit, 4⟩

def mkNode (cap : Int) : NodeData := ⟨0, [], cap⟩

/-- Two empty registered nodes of capacity 4. -/
def sTwoEmpty : ClusterState :=
  ⟨[(1, mkNode 4), (2, mkNode 4)], [], [], 2, [(1, ⟨4, []⟩), (2, ⟨4, []⟩)]⟩

/-- One empty registered node of capacity 4. -/
def sOneEmpty : ClusterState :=
  ⟨[(1, mkNode 4)], [], [], 1, [(1, ⟨4, []⟩)]⟩

/-- Snapshot with a three-way remaining tie at `req = 2`:
node_1 (cap 4, avail 2), node_2 (cap 4, avail 2), node_3 (cap 8, avail 2). -/
def allocsC3 : AllocList := [(1, ⟨2, 4, 2⟩), (2, ⟨2, 4, 2⟩), (3, ⟨6, 8, 2⟩)]

/-- Snapshot where node_1 is nearly full and node_2 is free:
node_1 (cap 4, avail 1), node_2 (cap 6, avail 6). -/
def allocsW : AllocList := [(1, ⟨3, 4, 1⟩), (2, ⟨0, 6, 6⟩)]

/-- node_1 (cap 4) hosts b(3) and a(1); node_2 (cap 2) is empty. -/
def sRemove : ClusterState :=
  ⟨[(1, mkNode 4), (2, mkNode 2)],
   [(1, [("b", ⟨3, 0, true⟩), ("a", ⟨1, 0, true⟩)])], [], 2,
   [(1, ⟨4, [("b", 3), ("a", 1)]⟩), (2, ⟨2, []⟩)]⟩

/-- A duplicate-id state (reachable by double-launching `p`, cf. C2):
`p` sits both on node_1 (cap 4, together with x(2)) and on node_2
(cap 9, together with big(4) and s(3)); node_3 (cap 3) is empty.
Removing node_2 with auto-scaling on makes the stale running totals of
the reschedule loop diverge from the fresh snapshots: `p` lands on
node_3 but `find_pod_node` attributes it to node_1, so s(3) passes the
loop's fit pre-check, hits `NoFit`, and triggers the auto-scale
`add_node` — whose pending drain re-places the already-failed `big`. -/
def sC6 : ClusterState :=
  ⟨[(1, mkNode 4), (2, mkNode 9), (3, mkNode 3)],
   [(1, [("p", ⟨2, 0, true⟩), ("x", ⟨2, 0, true⟩)]),
    (2, [("p", ⟨2, 0, true⟩), ("big", ⟨4, 0, true⟩), ("s", ⟨3, 0, true⟩)]),
    (3, [])], [], 3,
   [(1, ⟨4, [("p", 2), ("x", 2)]⟩),
    (2, ⟨9, [("p", 2), ("big", 4), ("s", 3)]⟩),
    (3, ⟨3, []⟩)]⟩

/-! # Theorems

## Association-list toolkit -/

theorem alookup_aset_self {α β : Type} [DecidableEq α] (k : α) (v : β)
    (l : List (α × β)) : alookup k (aset k v l) = some v := by
  induction l with
  | nil => simp [aset, alookup]
  | cons p rest ih =>
    by_cases h : p.1 = k
    · simp [aset, alookup, h]
    · simp [aset, alookup, h, ih]

theorem alookup_aset_ne {α β : Type} [DecidableEq α] {k2 k : α} (v : β)
    (l : List (α × β)) (h : k2 ≠ k) : alookup k (aset k2 v l) = alookup k l := by
  induction l with
  | nil => simp [aset, alookup, h]
  | cons p rest ih =>
    by_cases h2 : p.1 = k2
    · simp [aset, alookup, h2, h]
    · simp only [aset, h2, if_false, alookup]
      by_cases h3 : p.1 = k <;> simp [h3, ih]

theorem mem_aset {α β : Type} [DecidableEq α] {p : α × β} {k : α} {v : β}
    {l : List (α × β)} (h : p ∈ aset k v l) : p = (k, v) ∨ p ∈ l := by
  induction l with
  | nil => simpa [aset] using h
  | cons q rest ih =>
    by_cases h2 : q.1 = k
    · simp only [aset, h2, if_true, List.mem_cons] at h
      rcases h with h | h
      · exact Or.inl h
      · exact Or.inr (List.mem_cons_of_mem _ h)
    · simp only [aset, h2, if_false, List.mem_cons] at h
      rcases h with h | h
      · exact Or.inr (by simp [h])
      · rcases ih h with h3 | h3
        · exact Or.inl h3
        · exact Or.inr (List.mem_cons_of_mem _ h3)

theorem aerase_sublist {α β : Type} [DecidableEq α] (k : α) (l : List (α × β)) :
    (aerase k l).Sublist l := by
  induction l with
  | nil => simp [aerase]
  | cons q rest ih =>
    by_cases h2 : q.1 = k
    · simp only [aerase, h2, if_true]
      exact List.sublist_cons_self _ _
    · simp only [aerase, h2, if_false]
      exact ih.cons₂ _

theorem mem_aerase {α β : Type} [DecidableEq α] {p : α × β} {k : α}
    {l : List (α × β)} (h : p ∈ aerase k l) : p ∈ l :=
  (aerase_sublist k l).mem h

theorem alookup_eq_none {α β : Type} [DecidableEq α] {k : α} {l : List (α × β)} :
    alookup k l = none ↔ k ∉ l.map Prod.fst := by
  induction l with
  | nil => simp [alookup]
  | cons q rest ih =>
    by_cases h2 : q.1 = k
    · simp [alookup, h2]
    · simp only [alookup, h2, if_false, List.map_cons, List.mem_cons, not_or]
      rw [ih]
      exact ⟨fun h3 => ⟨fun h4 => h2 h4.symm, h3⟩, fun h3 => h3.2⟩

theorem alookup_mem {α β : Type} [DecidableEq α] {k : α} {v : β}
    {l : List (α × β)} (h : alookup k l = some v) : (k, v) ∈ l := by
  induction l with
  | nil => simp [alookup] at h
  | cons q rest ih =>
    by_cases h2 : q.1 = k
    · simp only [alookup, h2, if_true, Option.some.injEq] at h
      subst h
      exact (by simp [← h2])
    · simp only [alookup, h2, if_false] at h
      exact List.mem_cons_of_mem _ (ih h)

theorem alookup_aerase_self {α β : Type} [DecidableEq α] (k : α)
    {l : List (α × β)} (h : (l.map Prod.fst).Nodup) :
    alookup k (aerase k l) = none := by
  induction l with
  | nil => simp [aerase, alookup]
  | cons q rest ih =>
    simp only [List.map_cons, List.nodup_cons] at h
    by_cases h2 : q.1 = k
    · simp only [aerase, h2, if_true]
      subst h2
      exact alookup_eq_none.2 h.1
    · simp only [aerase, h2, if_false, alookup, h2, if_false]
      exact ih h.2

theorem alookup_aerase_ne {α β : Type} [DecidableEq α] {k2 k : α}
    (l : List (α × β)) (h : k2 ≠ k) : alookup k (aerase k2 l) = alookup k l := by
  induction l with
  | nil => simp [aerase]
  | cons q rest ih =>
    by_cases h2 : q.1 = k2
    · have h3 : ¬ q.1 = k := by rw [h2]; exact h
      simp [aerase, alookup, h2, h3, h]
    · simp only [aerase, h2, if_false, alookup]
      by_cases h3 : q.1 = k <;> simp [h3, ih]

theorem keys_aset_subset {α β : Type} [DecidableEq α] (k : α) (v : β)
    (l : List (α × β)) : ((aset k v l).map Prod.fst) ⊆ k :: l.map Prod.fst := by
  induction l with
  | nil => simp [aset]
  | cons q rest ih =>
    by_cases h2 : q.1 = k
    · intro a ha
      simp only [aset, h2, if_true, List.map_cons, List.mem_cons] at ha
      rcases ha with h3 | h3
      · simp [h3]
      · simp [h3]
    · intro a ha
      simp only [aset, h2, if_false, List.map_cons, List.mem_cons] at ha
      rcases ha with h3 | h3
      · simp [h3]
      · rcases List.mem_cons.1 (ih h3) with h4 | h4
        · simp [h4]
        · simp [h4]

theorem keys_aset_nodup {α β : Type} [DecidableEq α] (k : α) (v : β)
    {l : List (α × β)} (h : (l.map Prod.fst).Nodup) :
    ((aset k v l).map Prod.fst).Nodup := by
  induction l with
  | nil => simp [aset]
  | cons q rest ih =>
    simp only [List.map_cons, List.nodup_cons] at h
    by_cases h2 : q.1 = k
    · simp only [aset, h2, if_true, List.map_cons, List.nodup_cons]
      exact ⟨by rw [← h2]; exact h.1, h.2⟩
    · simp only [aset, h2, if_false, List.map_cons, List.nodup_cons]
      refine ⟨fun hmem => ?_, ih h.2⟩
      rcases List.mem_cons.1 (keys_aset_subset k v rest hmem) with h3 | h3
      · exact h2 h3
      · exact h.1 h3

theorem keys_aset_of_mem {α β : Type} [DecidableEq α] {k : α} (v : β)
    {l : List (α × β)} (h : k ∈ l.map Prod.fst) :
    (aset k v l).map Prod.fst = l.map Prod.fst := by
  induction l with
  | nil => simp at h
  | cons q rest ih =>
    by_cases h2 : q.1 = k
    · simp [aset, h2]
    · simp only [List.map_cons, List.mem_cons] at h
      rcases h with h | h
      · exact absurd h.symm h2
      · simp [aset, h2, ih h]

theorem sumRequests_aset_le {pods : List (String × Int)} (k : String) (v : Int)
    (h : ∀ e ∈ pods, 0 ≤ e.2) :
    sumRequests (aset k v pods) ≤ sumRequests pods + v := by
  induction pods with
  | nil => simp [aset, sumRequests]
  | cons q rest ih =>
    by_cases h2 : q.1 = k
    · simp only [aset, h2, if_true, sumRequests, List.map_cons, List.sum_cons]
      have hq : 0 ≤ q.2 := h q (List.mem_cons_self q rest)
      linarith
    · simp only [aset, h2, if_false, sumRequests, List.map_cons, List.sum_cons]
      have h3 := ih (fun e he => h e (List.mem_cons_of_mem _ he))
      simp only [sumRequests] at h3
      linarith

theorem sumRequests_aerase_le {pods : List (String × Int)} (k : String)
    (h : ∀ e ∈ pods, 0 ≤ e.2) :
    sumRequests (aerase k pods) ≤ sumRequests pods := by
  induction pods with
  | nil => simp [aerase]
  | cons q rest ih =>
    by_cases h2 : q.1 = k
    · simp only [aerase, h2, if_true, sumRequests, List.map_cons, List.sum_cons]
      have hq : 0 ≤ q.2 := h q (List.mem_cons_self q rest)
      linarith
    · simp only [aerase, h2, if_false, sumRequests, List.map_cons, List.sum_cons]
      have h3 := ih (fun e he => h e (List.mem_cons_of_mem _ he))
      simp only [sumRequests] at h3
      linarith

/-! ## Worker capacity check preserves the bound -/

theorem workerAddPod_ok {w w2 : Worker} {pid : String} {req : Int}
    (hw : workerOk w) (h : workerAddPod w pid req = some w2) : workerOk w2 := by
  unfold workerAddPod at h
  by_cases h1 : req ≤ 0
  · rw [if_pos h1] at h; exact absurd h (by simp)
  · rw [if_neg h1] at h
    by_cases h2 : sumRequests w.pods + req > w.capacity
    · rw [if_pos h2] at h; exact absurd h (by simp)
    · rw [if_neg h2] at h
      simp only [Option.some.injEq] at h
      subst h
      push_neg at h2
      constructor
      · exact le_trans (sumRequests_aset_le pid req hw.2) h2
      · intro e he
        rcases mem_aset he with h3 | h3
        · rw [h3]; exact le_of_lt (not_le.1 h1)
        · exact hw.2 e h3

theorem workerDeletePod_ok {w w2 : Worker} {pid : String}
    (hw : workerOk w) (h : workerDeletePod w pid = some w2) : workerOk w2 := by
  unfold workerDeletePod at h
  cases h1 : alookup pid w.pods with
  | none => rw [h1] at h; exact absurd h (by simp)
  | some v =>
    rw [h1] at h
    simp only [Option.some.injEq] at h
    subst h
    constructor
    · exact le_trans (sumRequests_aerase_le pid hw.2) hw.1
    · exact fun e he => hw.2 e (mem_aerase he)

theorem workersOk_aset {ws : List (Nat × Worker)} {n : Nat} {w : Worker}
    (hws : workersOk ws) (hw : workerOk w) : workersOk (aset n w ws) := by
  intro p hp
  rcases mem_aset hp with h | h
  · rw [h]; exact hw
  · exact hws p h

theorem workersOk_append1 {ws : List (Nat × Worker)} {n : Nat} {w : Worker}
    (hws : workersOk ws) (hw : workerOk w) : workersOk (ws ++ [(n, w)]) := by
  intro p hp
  rcases List.mem_append.1 hp with h | h
  · exact hws p h
  · rw [List.mem_singleton.1 h]; exact hw

theorem workersOk_aerase {ws : List (Nat × Worker)} (n : Nat)
    (hws : workersOk ws) : workersOk (aerase n ws) :=
  fun p hp => hws p (mem_aerase hp)

/-! ## Every placement path preserves the capacity bound -/

theorem capacityInv_commitPlace {s s2 : ClusterState} {nid : Nat} {pid : String}
    {req : Int} (hs : capacityInv s) (h : commitPlace s nid pid req = some s2) :
    capacityInv s2 := by
  unfold commitPlace at h
  split at h
  · exact absurd h (by simp)
  next w hw =>
    split at h
    · exact absurd h (by simp)
    next w2 hw2 =>
      simp only [Option.some.injEq] at h
      subst h
      exact workersOk_aset hs (workerAddPod_ok (hs (nid, w) (alookup_mem hw)) hw2)

theorem capacityInv_addNodeBasic {s : ClusterState} {now cores : Int}
    (hc : 0 ≤ cores) (hs : capacityInv s) :
    capacityInv (addNodeBasic now s cores).1 :=
  workersOk_append1 hs ⟨by simpa [sumRequests] using hc, by simp⟩

theorem capacityInv_rescheduleCoreLocked {cfg : Config} {now : Int} {s : ClusterState}
    {pid : String} {req : Int} (hd : 0 ≤ cfg.DEFAULT_NODE_CAPACITY)
    (hs : capacityInv s) : capacityInv (rescheduleCoreLocked cfg now s pid req).2 := by
  unfold rescheduleCoreLocked
  dsimp only
  split
  · split
    next s2 h2 => exact capacityInv_commitPlace hs h2
    next => exact hs
  · split
    · split
      next s3 h3 => exact capacityInv_commitPlace (capacityInv_addNodeBasic hd hs) h3
      next => exact capacityInv_addNodeBasic hd hs
    · exact hs

theorem capacityInv_reschedulePodLocked {cfg : Config} {now : Int} {s : ClusterState}
    {pid : String} {req : Int} (hd : 0 ≤ cfg.DEFAULT_NODE_CAPACITY)
    (hs : capacityInv s) : capacityInv (reschedulePodLocked cfg now s pid req).2 := by
  unfold reschedulePodLocked
  by_cases he : s.nodes.isEmpty
  · rw [if_pos he]
    by_cases hA : cfg.AUTO_SCALE
    · rw [if_pos hA]
      exact capacityInv_rescheduleCoreLocked hd (capacityInv_addNodeBasic hd hs)
    · rw [if_neg hA]; exact hs
  · rw [if_neg he]
    exact capacityInv_rescheduleCoreLocked hd hs

theorem capacityInv_cpLoop (cfg : Config) (now : Int)
    (hd : 0 ≤ cfg.DEFAULT_NODE_CAPACITY) (l : List (String × PendingInfo)) :
    ∀ (allocs : AllocList) (s : ClusterState) (removed : List String),
      capacityInv s → capacityInv (cpLoop cfg now l allocs s removed).1 := by
  induction l with
  | nil => intro allocs s removed hs; exact hs
  | cons q rest ih =>
    intro allocs s removed hs
    obtain ⟨pid, info⟩ := q
    simp only [cpLoop]
    by_cases hf : allocs.any (fun p => fitsB info.cpu_request p.2)
    · rw [if_pos hf]
      by_cases hr : (reschedulePodLocked cfg now s pid info.cpu_request).1 = true
      · rw [if_pos hr]
        exact ih _ _ _ (capacityInv_reschedulePodLocked hd hs)
      · rw [if_neg hr]
        exact ih _ _ _ (capacityInv_reschedulePodLocked hd hs)
    · rw [if_neg hf]
      exact ih _ _ _ hs

theorem capacityInv_check_pending {cfg : Config} {now : Int} {s : ClusterState}
    (hd : 0 ≤ cfg.DEFAULT_NODE_CAPACITY) (hs : capacityInv s) :
    capacityInv (check_pending_pods cfg now s) := by
  unfold check_pending_pods
  dsimp only
  split
  · exact hs
  · exact capacityInv_cpLoop cfg now hd
      (List.insertionSort pendingLe s.pendingPods) (computeAllocations s) s [] hs

theorem capacityInv_add_node {cfg : Config} {now cores : Int} {s : ClusterState}
    (hc : 0 ≤ cores) (hd : 0 ≤ cfg.DEFAULT_NODE_CAPACITY) (hs : capacityInv s) :
    capacityInv (add_node cfg now s cores).1 :=
  capacityInv_check_pending hd (capacityInv_addNodeBasic hc hs)

theorem capacityInv_rescheduleCore {cfg : Config} {now : Int} {s : ClusterState}
    {pid : String} {req : Int} (hd : 0 ≤ cfg.DEFAULT_NODE_CAPACITY)
    (hs : capacityInv s) : capacityInv (rescheduleCore cfg now s pid req).2 := by
  unfold rescheduleCore
  dsimp only
  split
  · split
    next s2 h2 => exact capacityInv_commitPlace hs h2
    next => exact hs
  · split
    · split
      next s3 h3 => exact capacityInv_commitPlace (capacityInv_add_node hd hd hs) h3
      next => exact capacityInv_add_node hd hd hs
    · exact hs

theorem capacityInv_reschedule {cfg : Config} {now : Int} {s : ClusterState}
    {pid : String} {req : Int} (hd : 0 ≤ cfg.DEFAULT_NODE_CAPACITY)
    (hs : capacityInv s) : capacityInv (reschedule_pod cfg now s pid req).2 := by
  unfold reschedule_pod
  by_cases he : s.nodes.isEmpty
  · rw [if_pos he]
    by_cases hA : cfg.AUTO_SCALE
    · rw [if_pos hA]
      exact capacityInv_rescheduleCore hd (capacityInv_add_node hd hd hs)
    · rw [if_neg hA]; exact hs
  · rw [if_neg he]
    exact capacityInv_rescheduleCore hd hs

theorem capacityInv_launchCore {cfg : Config} {now : Int} {s : ClusterState}
    {pid : String} {req : Int} (hd : 0 ≤ cfg.DEFAULT_NODE_CAPACITY)
    (hs : capacityInv s) : capacityInv (launchCore cfg now s pid req).2 := by
  unfold launchCore
  dsimp only
  split
  · split
    next s2 h2 => exact capacityInv_commitPlace hs h2
    next => exact hs
  · split
    · split
      next s3 h3 => exact capacityInv_commitPlace (capacityInv_add_node hd hd hs) h3
      next => exact capacityInv_add_node hd hd hs
    · exact hs

theorem capacityInv_launch {cfg : Config} {now : Int} {s : ClusterState}
    {pid : String} {req : Int} (hd : 0 ≤ cfg.DEFAULT_NODE_CAPACITY)
    (hs : capacityInv s) : capacityInv (launch_pod cfg now s pid req).2 := by
  unfold launch_pod
  by_cases h1 : req ≤ 0
  · rw [if_pos h1]; exact hs
  · rw [if_neg h1]
    by_cases he : s.nodes.isEmpty
    · rw [if_pos he]
      by_cases hA : cfg.AUTO_SCALE
      · rw [if_pos hA]
        exact capacityInv_launchCore hd (capacityInv_add_node hd hd hs)
      · rw [if_neg hA]; exact hs
    · rw [if_neg he]
      exact capacityInv_launchCore hd hs

theorem capacityInv_delete_pod {s : ClusterState} {nid : Nat} {pid : String}
    (hs : capacityInv s) : capacityInv (delete_pod s nid pid).2 := by
  unfold delete_pod
  split
  · exact hs
  next nd h1 =>
    split
    · exact hs
    next w h2 =>
      unfold deletePodSend
      split
      next w2 h3 =>
        exact workersOk_aset hs (workerDeletePod_ok (hs (nid, w) (alookup_mem h2)) h3)
      next => exact hs

theorem capacityInv_rnLoop (cfg : Config) (now : Int) (origin : Nat)
    (hd : 0 ≤ cfg.DEFAULT_NODE_CAPACITY) (l : List (String × Int)) :
    ∀ (allocs : AllocList) (s : ClusterState) (failed resched : List PodRef),
      capacityInv s → capacityInv (rnLoop cfg now origin l allocs s failed resched).1 := by
  induction l with
  | nil => intro allocs s failed resched hs; exact hs
  | cons q rest ih =>
    intro allocs s failed resched hs
    obtain ⟨pid, req⟩ := q
    simp only [rnLoop]
    by_cases hf : allocs.any (fun p => fitsB req p.2)
    · rw [if_pos hf]
      by_cases hr : (reschedule_pod cfg now s pid req).1 = true
      · rw [if_pos hr]
        exact ih _ _ _ _ (capacityInv_reschedule hd hs)
      · rw [if_neg hr]
        exact ih _ _ _ _ (capacityInv_reschedule hd hs)
    · rw [if_neg hf]
      exact ih _ _ _ _ hs

theorem workers_enqueue_fold (now : Int) (nid : Nat) (pods : List (String × Int))
    (s : ClusterState) :
    (pods.foldl (fun st p => enqueuePending now st p.1 p.2 nid) s).workers
      = s.workers := by
  induction pods generalizing s with
  | nil => rfl
  | cons q rest ih => simp only [List.foldl_cons]; rw [ih]; rfl

theorem capacityInv_remove_node {cfg : Config} {now : Int} {s : ClusterState}
    {nid : Nat} (hd : 0 ≤ cfg.DEFAULT_NODE_CAPACITY) (hs : capacityInv s) :
    capacityInv (remove_node cfg now s nid).2 := by
  have hbase : capacityInv (removeNodeBase s nid) := workersOk_aerase nid hs
  unfold remove_node
  dsimp only
  split
  · exact hbase
  · split
    · unfold capacityInv
      rw [workers_enqueue_fold]
      exact hbase
    · refine capacityInv_rnLoop cfg now nid hd _ _ _ _ _ ?_
      unfold capacityInv
      rw [workers_enqueue_fold]
      exact hbase

theorem capacityInv_heartbeat {now : Int} {s : ClusterState} {r : HeartbeatRequest}
    (hs : capacityInv s) : capacityInv (receive_heartbeat now s r).2 := by
  unfold receive_heartbeat
  split
  · exact hs
  · split
    next nd h1 => exact hs
    next => exact hs

/-- Claim C1.  At every observable instant and for every node, the sum of
`cpu_request` over the pods placed on it is at most the node's capacity:
the invariant `capacityInv` is preserved by every observable step of the
control plane — pod launch (including its auto-scale fallback), node
addition with its pending-queue drain, node removal with rescheduling,
pod deletion, heartbeats, metrics polling, and a standalone drain.  The
enforcement point is the worker's own admission check
(src/node_manager.py:196-212); every placement path commits state only
after that check accepts. -/
theorem C1_capacity_invariant (cfg : Config)
    (hd : 0 < cfg.DEFAULT_NODE_CAPACITY) (s s2 : ClusterState)
    (hs : capacityInv s) (hstep : Step cfg s s2) : capacityInv s2 := by
  cases hstep with
  | launch now pid req s => exact capacityInv_launch (le_of_lt hd) hs
  | addNode now cores s h => exact capacityInv_add_node (le_of_lt h) (le_of_lt hd) hs
  | removeNode now nid s => exact capacityInv_remove_node (le_of_lt hd) hs
  | deletePod nid pid s => exact capacityInv_delete_pod hs
  | heartbeat now r s => exact capacityInv_heartbeat hs
  | poll s => exact hs
  | drain now s => exact capacityInv_check_pending (le_of_lt hd) hs

/-- Witness for C1: a concrete launch step from a two-node cluster whose
invariant holds, with the invariant holding after the step. -/
theorem C1_capacity_invariant_witness :
    0 < cfgFF.DEFAULT_NODE_CAPACITY ∧ capacityInv sTwoEmpty ∧
      capacityInv (launch_pod cfgFF 0 sTwoEmpty "p" 3).2 :=
  ⟨by decide,
   by unfold capacityInv workersOk workerOk sTwoEmpty; decide,
   C1_capacity_invariant cfgFF (by decide) sTwoEmpty _
     (by unfold capacityInv workersOk workerOk sTwoEmpty; decide)
     (Step.launch 0 "p" 3 sTwoEmpty)⟩

theorem alookup_append {α β : Type} [DecidableEq α] (k : α)
    (l1 l2 : List (α × β)) :
    alookup k (l1 ++ l2) =
      match alookup k l1 with
      | some v => some v
      | none => alookup k l2 := by
  induction l1 with
  | nil => simp [alookup]
  | cons q rest ih =>
    by_cases h2 : q.1 = k <;> simp [alookup, h2, ih]

/-! ## Structural well-formedness is preserved by every step -/

theorem pairwise_keys_aset {α β : Type} [DecidableEq α] [LT α] {k : α} (v : β)
    {l : List (α × β)} (hp : l.Pairwise (fun p q => p.1 < q.1))
    (hmem : k ∈ l.map Prod.fst) :
    (aset k v l).Pairwise (fun p q : α × β => p.1 < q.1) := by
  induction l with
  | nil => simp at hmem
  | cons q rest ih =>
    rcases List.pairwise_cons.1 hp with ⟨hq, hrest⟩
    by_cases h2 : q.1 = k
    · simp only [aset, h2, if_true]
      refine List.pairwise_cons.2 ⟨fun r hr => ?_, hrest⟩
      have := hq r hr
      rw [← h2]
      exact this
    · simp only [aset, h2, if_false]
      simp only [List.map_cons, List.mem_cons] at hmem
      rcases hmem with h3 | h3
      · exact absurd h3.symm h2
      · refine List.pairwise_cons.2 ⟨fun r hr => ?_, ih hrest h3⟩
        rcases mem_aset hr with h4 | h4
        · rw [h4]
          obtain ⟨w, hw⟩ := List.mem_map.1 h3
          have := hq w hw.1
          rw [hw.2] at this
          exact this
        · exact hq r h4

theorem nodesSorted_addNodeBasic {s : ClusterState} {now cores : Int}
    (hs : nodesSorted s) : nodesSorted (addNodeBasic now s cores).1 := by
  obtain ⟨hp, hb⟩ := hs
  constructor
  · refine List.pairwise_append.2 ⟨hp, List.pairwise_singleton _ _, ?_⟩
    intro a ha b hb2
    rw [List.mem_singleton.1 hb2]
    exact Nat.lt_succ_of_le (hb a ha)
  · intro p hp2
    rcases List.mem_append.1 hp2 with h | h
    · exact Nat.le_succ_of_le (hb p h)
    · rw [List.mem_singleton.1 h]
      exact Nat.le_refl _

theorem podsKeysNodup_addNodeBasic {s : ClusterState} {now cores : Int}
    (hs : podsKeysNodup s) : podsKeysNodup (addNodeBasic now s cores).1 := by
  intro p hp
  rcases List.mem_append.1 hp with h | h
  · exact hs p h
  · rw [List.mem_singleton.1 h]; simp

theorem Wf_addNodeBasic {s : ClusterState} {now cores : Int}
    (hs : Wf s) : Wf (addNodeBasic now s cores).1 :=
  ⟨nodesSorted_addNodeBasic hs.1, podsKeysNodup_addNodeBasic hs.2⟩

theorem Wf_commitPlace {s s2 : ClusterState} {nid : Nat} {pid : String}
    {req : Int} (hs : Wf s) (h : commitPlace s nid pid req = some s2) : Wf s2 := by
  unfold commitPlace at h
  split at h
  · exact absurd h (by simp)
  next w hw =>
    split at h
    · exact absurd h (by simp)
    next w2 hw2 =>
      simp only [Option.some.injEq] at h
      subst h
      refine ⟨hs.1, ?_⟩
      intro p hp
      rcases mem_aset hp with h3 | h3
      · rw [h3]
        unfold workerAddPod at hw2
        by_cases h4 : req ≤ 0
        · rw [if_pos h4] at hw2; exact absurd hw2 (by simp)
        · rw [if_neg h4] at hw2
          by_cases h5 : sumRequests w.pods + req > w.capacity
          · rw [if_pos h5] at hw2; exact absurd hw2 (by simp)
          · rw [if_neg h5] at hw2
            simp only [Option.some.injEq] at hw2
            subst hw2
            exact keys_aset_nodup pid req (hs.2 (nid, w) (alookup_mem hw))
      · exact hs.2 p h3

theorem Wf_rescheduleCoreLocked {cfg : Config} {now : Int} {s : ClusterState}
    {pid : String} {req : Int} (hs : Wf s) :
    Wf (rescheduleCoreLocked cfg now s pid req).2 := by
  unfold rescheduleCoreLocked
  dsimp only
  split
  · split
    next s2 h2 => exact Wf_commitPlace hs h2
    next => exact hs
  · split
    · split
      next s3 h3 => exact Wf_commitPlace (Wf_addNodeBasic hs) h3
      next => exact Wf_addNodeBasic hs
    · exact hs

theorem Wf_reschedulePodLocked {cfg : Config} {now : Int} {s : ClusterState}
    {pid : String} {req : Int} (hs : Wf s) :
    Wf (reschedulePodLocked cfg now s pid req).2 := by
  unfold reschedulePodLocked
  by_cases he : s.nodes.isEmpty
  · rw [if_pos he]
    by_cases hA : cfg.AUTO_SCALE
    · rw [if_pos hA]
      exact Wf_rescheduleCoreLocked (Wf_addNodeBasic hs)
    · rw [if_neg hA]; exact hs
  · rw [if_neg he]
    exact Wf_rescheduleCoreLocked hs

theorem Wf_cpLoop (cfg : Config) (now : Int) (l : List (String × PendingInfo)) :
    ∀ (allocs : AllocList) (s : ClusterState) (removed : List String),
      Wf s → Wf (cpLoop cfg now l allocs s removed).1 := by
  induction l with
  | nil => intro allocs s removed hs; exact hs
  | cons q rest ih =>
    intro allocs s removed hs
    obtain ⟨pid, info⟩ := q
    simp only [cpLoop]
    by_cases hf : allocs.any (fun p => fitsB info.cpu_request p.2)
    · rw [if_pos hf]
      by_cases hr : (reschedulePodLocked cfg now s pid info.cpu_request).1 = true
      · rw [if_pos hr]
        exact ih _ _ _ (Wf_reschedulePodLocked hs)
      · rw [if_neg hr]
        exact ih _ _ _ (Wf_reschedulePodLocked hs)
    · rw [if_neg hf]
      exact ih _ _ _ hs

theorem Wf_check_pending {cfg : Config} {now : Int} {s : ClusterState}
    (hs : Wf s) : Wf (check_pending_pods cfg now s) := by
  unfold check_pending_pods
  dsimp only
  split
  · exact hs
  · exact Wf_cpLoop cfg now
      (List.insertionSort pendingLe s.pendingPods) (computeAllocations s) s [] hs

theorem Wf_add_node {cfg : Config} {now cores : Int} {s : ClusterState}
    (hs : Wf s) : Wf (add_node cfg now s cores).1 :=
  Wf_check_pending (Wf_addNodeBasic hs)

theorem Wf_rescheduleCore {cfg : Config} {now : Int} {s : ClusterState}
    {pid : String} {req : Int} (hs : Wf s) :
    Wf (rescheduleCore cfg now s pid req).2 := by
  unfold rescheduleCore
  dsimp only
  split
  · split
    next s2 h2 => exact Wf_commitPlace hs h2
    next => exact hs
  · split
    · split
      next s3 h3 => exact Wf_commitPlace (Wf_add_node hs) h3
      next => exact Wf_add_node hs
    · exact hs

theorem Wf_reschedule {cfg : Config} {now : Int} {s : ClusterState}
    {pid : String} {req : Int} (hs : Wf s) :
    Wf (reschedule_pod cfg now s pid req).2 := by
  unfold reschedule_pod
  by_cases he : s.nodes.isEmpty
  · rw [if_pos he]
    by_cases hA : cfg.AUTO_SCALE
    · rw [if_pos hA]
      exact Wf_rescheduleCore (Wf_add_node hs)
    · rw [if_neg hA]; exact hs
  · rw [if_neg he]
    exact Wf_rescheduleCore hs

theorem Wf_launchCore {cfg : Config} {now : Int} {s : ClusterState}
    {pid : String} {req : Int} (hs : Wf s) :
    Wf (launchCore cfg now s pid req).2 := by
  unfold launchCore
  dsimp only
  split
  · split
    next s2 h2 => exact Wf_commitPlace hs h2
    next => exact hs
  · split
    · split
      next s3 h3 => exact Wf_commitPlace (Wf_add_node hs) h3
      next => exact Wf_add_node hs
    · exact hs

theorem Wf_launch {cfg : Config} {now : Int} {s : ClusterState}
    {pid : String} {req : Int} (hs : Wf s) :
    Wf (launch_pod cfg now s pid req).2 := by
  unfold launch_pod
  by_cases h1 : req ≤ 0
  · rw [if_pos h1]; exact hs
  · rw [if_neg h1]
    by_cases he : s.nodes.isEmpty
    · rw [if_pos he]
      by_cases hA : cfg.AUTO_SCALE
      · rw [if_pos hA]
        exact Wf_launchCore (Wf_add_node hs)
      · rw [if_neg hA]; exact hs
    · rw [if_neg he]
      exact Wf_launchCore hs

theorem Wf_delete_pod {s : ClusterState} {nid : Nat} {pid : String}
    (hs : Wf s) : Wf (delete_pod s nid pid).2 := by
  unfold delete_pod
  split
  · exact hs
  next nd h1 =>
    split
    · exact hs
    next w h2 =>
      unfold deletePodSend
      split
      next w2 h3 =>
        refine ⟨hs.1, ?_⟩
        intro p hp
        rcases mem_aset hp with h4 | h4
        · rw [h4]
          unfold workerDeletePod at h3
          split at h3
          · simp only [Option.some.injEq] at h3
            subst h3
            exact (List.Sublist.map Prod.fst (aerase_sublist pid w.pods)).nodup
              (hs.2 (nid, w) (alookup_mem h2))
          · exact absurd h3 (by simp)
        · exact hs.2 p h4
      next => exact hs

theorem nodesCounter_enqueue_fold (now : Int) (nid : Nat)
    (pods : List (String × Int)) (s : ClusterState) :
    ((pods.foldl (fun st p => enqueuePending now st p.1 p.2 nid) s).nodes
        = s.nodes ∧
      (pods.foldl (fun st p => enqueuePending now st p.1 p.2 nid) s).nodeCounter
        = s.nodeCounter) := by
  induction pods generalizing s with
  | nil => exact ⟨rfl, rfl⟩
  | cons q rest ih =>
    simp only [List.foldl_cons]
    exact ih _

theorem Wf_enqueue_fold {now : Int} {nid : Nat} {pods : List (String × Int)}
    {s : ClusterState} (hs : Wf s) :
    Wf (pods.foldl (fun st p => enqueuePending now st p.1 p.2 nid) s) := by
  induction pods generalizing s with
  | nil => exact hs
  | cons q rest ih =>
    simp only [List.foldl_cons]
    exact ih hs

theorem Wf_removeNodeBase {s : ClusterState} {nid : Nat} (hs : Wf s) :
    Wf (removeNodeBase s nid) := by
  refine ⟨⟨hs.1.1.sublist (aerase_sublist nid s.nodes), ?_⟩, ?_⟩
  · exact fun p hp => hs.1.2 p (mem_aerase hp)
  · exact fun p hp => hs.2 p (mem_aerase hp)

theorem Wf_rnLoop (cfg : Config) (now : Int) (origin : Nat)
    (l : List (String × Int)) :
    ∀ (allocs : AllocList) (s : ClusterState) (failed resched : List PodRef),
      Wf s → Wf (rnLoop cfg now origin l allocs s failed resched).1 := by
  induction l with
  | nil => intro allocs s failed resched hs; exact hs
  | cons q rest ih =>
    intro allocs s failed resched hs
    obtain ⟨pid, req⟩ := q
    simp only [rnLoop]
    by_cases hf : allocs.any (fun p => fitsB req p.2)
    · rw [if_pos hf]
      by_cases hr : (reschedule_pod cfg now s pid req).1 = true
      · rw [if_pos hr]
        exact ih _ _ _ _ (Wf_reschedule hs)
      · rw [if_neg hr]
        exact ih _ _ _ _ (Wf_reschedule hs)
    · rw [if_neg hf]
      exact ih _ _ _ _ hs

theorem Wf_remove_node {cfg : Config} {now : Int} {s : ClusterState}
    {nid : Nat} (hs : Wf s) : Wf (remove_node cfg now s nid).2 := by
  have hbase : Wf (removeNodeBase s nid) := Wf_removeNodeBase hs
  unfold remove_node
  dsimp only
  split
  · exact hbase
  · split
    · exact Wf_enqueue_fold hbase
    · exact Wf_rnLoop cfg now nid _ _ _ _ _ (Wf_enqueue_fold hbase)

theorem Wf_heartbeat {now : Int} {s : ClusterState} {r : HeartbeatRequest}
    (hs : Wf s) : Wf (receive_heartbeat now s r).2 := by
  unfold receive_heartbeat
  split
  · exact hs
  next nid hnid =>
    split
    next nd h1 =>
      refine ⟨⟨?_, ?_⟩, hs.2⟩
      · exact pairwise_keys_aset _ hs.1.1
          (List.mem_map.2 ⟨(nid, nd), alookup_mem h1, rfl⟩)
      · intro p hp
        rcases mem_aset hp with h2 | h2
        · rw [h2]
          exact hs.1.2 (nid, nd) (alookup_mem h1)
        · exact hs.1.2 p h2
    next => exact hs

theorem Wf_step {cfg : Config} {s s2 : ClusterState}
    (hs : Wf s) (hstep : Step cfg s s2) : Wf s2 := by
  cases hstep with
  | launch now pid req s => exact Wf_launch hs
  | addNode now cores s h => exact Wf_add_node hs
  | removeNode now nid s => exact Wf_remove_node hs
  | deletePod nid pid s => exact Wf_delete_pod hs
  | heartbeat now r s => exact Wf_heartbeat hs
  | poll s => exact ⟨hs.1, hs.2⟩
  | drain now s => exact Wf_check_pending hs

/-! ## First-fit characterization (C7) -/

theorem findFirstFit_spec (req : Int) (allocs : AllocList)
    (hsorted : allocs.Pairwise (fun p q => p.1 < q.1)) :
    (∀ n, findFirstFit req allocs = some n →
      ∃ a, (n, a) ∈ allocs ∧ req ≤ a.available ∧
        ∀ p ∈ allocs, req ≤ p.2.available → n ≤ p.1) ∧
    (findFirstFit req allocs = none ↔ ∀ p ∈ allocs, p.2.available < req) := by
  induction allocs with
  | nil => exact ⟨fun n h => by simp [findFirstFit] at h, by simp [findFirstFit]⟩
  | cons q rest ih =>
    rcases List.pairwise_cons.1 hsorted with ⟨hq, hrest⟩
    obtain ⟨hione, hitwo⟩ := ih hrest
    by_cases hfit : req ≤ q.2.available
    · constructor
      · intro n hn
        simp only [findFirstFit, if_pos hfit, Option.some.injEq] at hn
        subst hn
        refine ⟨q.2, by simp, hfit, ?_⟩
        intro p hp hpfit
        rcases List.mem_cons.1 hp with h | h
        · rw [h]
        · exact Nat.le_of_lt (hq p h)
      · simp only [findFirstFit, if_pos hfit]
        constructor
        · intro h; exact absurd h (by simp)
        · intro h
          exact absurd (h q (List.mem_cons_self q rest)) (not_lt.2 hfit)
    · constructor
      · intro n hn
        simp only [findFirstFit, if_neg hfit] at hn
        obtain ⟨a, hmem, hfit2, hmin⟩ := hione n hn
        refine ⟨a, List.mem_cons_of_mem _ hmem, hfit2, ?_⟩
        intro p hp hpfit
        rcases List.mem_cons.1 hp with h | h
        · rw [h] at hpfit
          exact absurd hpfit hfit
        · exact hmin p h hpfit
      · simp only [findFirstFit, if_neg hfit]
        rw [hitwo]
        constructor
        · intro h p hp
          rcases List.mem_cons.1 hp with h2 | h2
          · rw [h2]; exact not_le.1 hfit
          · exact h p h2
        · intro h p hp
          exact h p (List.mem_cons_of_mem _ hp)

theorem computeAllocations_pairwise {s : ClusterState} (hs : Wf s) :
    (computeAllocations s).Pairwise (fun p q => p.1 < q.1) := by
  unfold computeAllocations
  exact List.Pairwise.map _ (fun a b h => h) hs.1.1

/-- Claim C7.  Under the first-fit policy, the scheduler visits candidate
nodes in ascending numeric suffix of node_id (the order of every
snapshot the registry produces: snapshots stay suffix-sorted, as the
first two conjuncts show) and returns the first — i.e. lowest-suffix —
node with `available ≥ cpu_request`; it returns `none` exactly when no
node fits. -/
theorem C7_first_fit_order (cfg : Config)
    (halgo : cfg.SCHEDULING_ALGO = .firstFit) :
    (∀ s s2 : ClusterState, Wf s → Step cfg s s2 → Wf s2) ∧
    (∀ s : ClusterState, Wf s →
      (computeAllocations s).Pairwise (fun p q => p.1 < q.1)) ∧
    (∀ (req : Int) (allocs : AllocList), 0 < req →
      allocs.Pairwise (fun p q => p.1 < q.1) →
      (∀ n, find_node_for_pod cfg req allocs = some n →
        ∃ a, (n, a) ∈ allocs ∧ req ≤ a.available ∧
          ∀ p ∈ allocs, req ≤ p.2.available → n ≤ p.1) ∧
      (find_node_for_pod cfg req allocs = none ↔
        ∀ p ∈ allocs, p.2.available < req)) := by
  refine ⟨fun s s2 hs hstep => Wf_step hs hstep,
    fun s hs => computeAllocations_pairwise hs, ?_⟩
  intro req allocs hreq hsorted
  unfold find_node_for_pod
  rw [halgo]
  exact findFirstFit_spec req allocs hsorted

/-- Witness for C7: on the suffix-sorted snapshot `allocsW` with
`req = 3`, node_1 (avail 1) is skipped and node_2 is returned, and it is
the lowest-suffix fitting node. -/
theorem C7_first_fit_order_witness :
    Wf sTwoEmpty ∧
    (∃ a, (2, a) ∈ allocsW ∧ (3 : Int) ≤ a.available ∧
      ∀ p ∈ allocsW, (3 : Int) ≤ p.2.available → 2 ≤ p.1) :=
  ⟨by unfold Wf nodesSorted podsKeysNodup sTwoEmpty; refine ⟨⟨?_, ?_⟩, ?_⟩ <;> decide,
   ((C7_first_fit_order cfgFF rfl).2.2 3 allocsW (by decide)
      (by unfold allocsW; decide)).1 2 (by decide)⟩

/-! ## Heartbeat frame and effect (C10) -/

/-- Claim C10.  A heartbeat naming a registered node sets that node's
`last_heartbeat` to the current time and replaces its `pod_health` map
wholesale with the request payload (defaulting to the empty map when the
field is absent), so entries for omitted pods are dropped; the node's
capacity, every other node, the cached status view, the pending queue,
the workers, and the node counter are unchanged.  A heartbeat naming an
unregistered node returns 404 and changes nothing.  (The opaque
container handle is not part of the model; the record update at
src/app.py:792-793 touches only the two fields shown.) -/
theorem C10_heartbeat_frame (now : Int) (s : ClusterState) (r : HeartbeatRequest)
    (nid : Nat) (hnid : r.node_id = some nid) :
    (∀ nd, alookup nid s.nodes = some nd →
      (receive_heartbeat now s r).1 = .ok ∧
      (receive_heartbeat now s r).2.nodes =
        aset nid { nd with last_heartbeat := now,
                           pod_health := r.pod_health.getD [] } s.nodes ∧
      (∃ nd2, alookup nid (receive_heartbeat now s r).2.nodes = some nd2 ∧
        nd2.last_heartbeat = now ∧ nd2.pod_health = r.pod_health.getD [] ∧
        nd2.capacity = nd.capacity) ∧
      (∀ m, m ≠ nid →
        alookup m (receive_heartbeat now s r).2.nodes = alookup m s.nodes) ∧
      (receive_heartbeat now s r).2.cachedStatus = s.cachedStatus ∧
      (receive_heartbeat now s r).2.pendingPods = s.pendingPods ∧
      (receive_heartbeat now s r).2.workers = s.workers ∧
      (receive_heartbeat now s r).2.nodeCounter = s.nodeCounter) ∧
    (alookup nid s.nodes = none →
      receive_heartbeat now s r = (.err 404, s)) := by
  constructor
  · intro nd hnd
    unfold receive_heartbeat
    split
    next hx => rw [hnid] at hx; exact absurd hx (by simp)
    next nid2 hx =>
      rw [hnid] at hx
      injection hx with hx
      subst hx
      split
      next nd2 hy =>
        rw [hnd] at hy
        injection hy with hy
        subst hy
        exact ⟨rfl, rfl,
          ⟨_, alookup_aset_self _ _ _, rfl, rfl, rfl⟩,
          fun m hm => alookup_aset_ne _ _ (Ne.symm hm), rfl, rfl, rfl, rfl⟩
      next hy => rw [hnd] at hy; exact absurd hy (by simp)
  · intro hnone
    unfold receive_heartbeat
    split
    next hx => rw [hnid] at hx; exact absurd hx (by simp)
    next nid2 hx =>
      rw [hnid] at hx
      injection hx with hx
      subst hx
      split
      next nd2 hy => rw [hnone] at hy; exact absurd hy (by simp)
      next hy => rfl

/-- Witness for C10: a concrete heartbeat for registered `node_1`
replaces its health map with `[("x", false)]` at time 5, and one for
unknown `node_7` is a 404 no-op. -/
theorem C10_heartbeat_frame_witness :
    (receive_heartbeat 5 sTwoEmpty ⟨some 1, some [("x", false)]⟩).1 = ApiResult.ok ∧
    receive_heartbeat 5 sTwoEmpty ⟨some 7, none⟩ = (ApiResult.err 404, sTwoEmpty) :=
  ⟨((C10_heartbeat_frame 5 sTwoEmpty ⟨some 1, some [("x", false)]⟩ 1 rfl).1
      (mkNode 4) rfl).1,
   (C10_heartbeat_frame 5 sTwoEmpty ⟨some 7, none⟩ 7 rfl).2 rfl⟩

/-! ## DeleteNode of an absent node (C9) -/

theorem aerase_eq_of_alookup_none {α β : Type} [DecidableEq α] {k : α}
    {l : List (α × β)} (h : alookup k l = none) : aerase k l = l := by
  induction l with
  | nil => rfl
  | cons q rest ih =>
    by_cases h2 : q.1 = k
    · simp only [alookup, h2, if_true] at h
      exact absurd h (by simp)
    · simp only [alookup, h2, if_false] at h
      simp only [aerase, h2, if_false]
      rw [ih h]

/-- Claim C9 counterexample: deleting the absent `node_7` from a one-node
cluster returns HTTP 200 with a success report, not the 404 the claim
requires. -/
theorem C9_delete_node_counterexample :
    alookup 7 sOneEmpty.nodes = none ∧
    (delete_node cfgFF 0 sOneEmpty (some 7)).1.1 = 200 ∧
    (delete_node cfgFF 0 sOneEmpty (some 7)).1.1 ≠ 404 := by
  refine ⟨by decide, by decide, by decide⟩

/-- Claim C9, amended.  `DeleteNode` never consults the registry for existence:
for a `node_id` absent from the registry (and hence from the cached
status) the removal is a no-op that still reports HTTP 200 success with
an empty report — registry, cached status and pending queue are
unchanged.  Only a missing `node_id` field yields 400. -/
theorem C9_delete_node_absent (cfg : Config) (now : Int) (s : ClusterState)
    (n : Nat) (hn : alookup n s.nodes = none)
    (hc : alookup n s.cachedStatus = none) :
    (delete_node cfg now s (some n)).1.1 = 200 ∧
    (delete_node cfg now s (some n)).1.2 = (true, [], []) ∧
    (delete_node cfg now s (some n)).2.nodes = s.nodes ∧
    (delete_node cfg now s (some n)).2.cachedStatus = s.cachedStatus ∧
    (delete_node cfg now s (some n)).2.pendingPods = s.pendingPods := by
  have hdisp : removeNodeDisplaced s n = [] := by
    unfold removeNodeDisplaced
    rw [hc]
    rfl
  have heq : remove_node cfg now s n = ((true, [], []), removeNodeBase s n) := by
    unfold remove_node
    dsimp only
    rw [hdisp]
    rfl
  unfold delete_node
  dsimp only
  rw [heq]
  refine ⟨rfl, rfl, ?_, ?_, rfl⟩
  · exact aerase_eq_of_alookup_none hn
  · exact aerase_eq_of_alookup_none hc

/-- Witness for C9's amended statement, at the concrete counterexample
input. -/
theorem C9_delete_node_absent_witness :
    (delete_node cfgFF 0 sOneEmpty (some 7)).1.2 = (true, [], []) ∧
    (delete_node cfgFF 0 sOneEmpty (some 7)).2.nodes = sOneEmpty.nodes :=
  ⟨(C9_delete_node_absent cfgFF 0 sOneEmpty 7 (by decide) (by decide)).2.1,
   (C9_delete_node_absent cfgFF 0 sOneEmpty 7 (by decide) (by decide)).2.2.1⟩

/-! ## Auto-scale fallback capacity (C4) -/

/-- Claim C4 is a code bug.  With auto-scaling on, `DEFAULT_NODE_CAPACITY = 4`
and a single full-capacity-4 cluster, launching a 5-core pod hits the
`NoFit` auto-scale branch; `add_node` reads `cores` from the *launch*
request's JSON — which has no `cores` field — so the new node_2 is
provisioned with capacity 4, not `max(4, 5) = 5`; the worker then
rejects the 5-core pod and the launch fails with 400, leaving the pod
placed nowhere.  The source's own comment at src/app.py:691 ("Create a
new node with enough capacity for this pod") states the claimed intent
that the code does not implement. -/
theorem C4_autoscale_capacity_bug :
    (launch_pod cfgAS 0 sOneEmpty "big" 5).1 = LaunchResult.failure 400 ∧
    (∃ nd, alookup 2 (launch_pod cfgAS 0 sOneEmpty "big" 5).2.nodes = some nd ∧
      nd.capacity = 4 ∧ nd.capacity < 5) ∧
    (∀ p ∈ (launch_pod cfgAS 0 sOneEmpty "big" 5).2.workers,
      alookup "big" p.2.pods = none) := by
  refine ⟨by decide, ⟨⟨0, [], 4⟩, by decide, by decide, by decide⟩, by decide⟩

/-! ## DeletePod aftermath (C5) -/

theorem keys_map_pair {β γ : Type} (f : String × β → γ) (l : List (String × β)) :
    (l.map (fun q => (q.1, f q))).map Prod.fst = l.map Prod.fst := by
  induction l with
  | nil => rfl
  | cons q rest ih => simp only [List.map_cons, ih]

theorem alookup_pollStep_fold_of_not_mem (ws : List (Nat × Worker))
    (ns : List (Nat × NodeData)) (cs : List (Nat × List (String × PodStat)))
    (k : Nat) (h : k ∉ ns.map Prod.fst) :
    alookup k (ns.foldl (pollStep ws) cs) = alookup k cs := by
  induction ns generalizing cs with
  | nil => rfl
  | cons q rest ih =>
    simp only [List.map_cons, List.mem_cons, not_or] at h
    simp only [List.foldl_cons]
    rw [ih _ h.2]
    unfold pollStep
    cases hq : alookup q.1 ws with
    | none => rfl
    | some w => exact alookup_aset_ne _ _ (fun h2 => h.1 h2.symm)

theorem alookup_pollStep_fold (ws : List (Nat × Worker))
    (ns : List (Nat × NodeData)) (cs : List (Nat × List (String × PodStat)))
    (k : Nat) (nd : NodeData) (w : Worker)
    (hnd : (ns.map Prod.fst).Nodup) (hk : alookup k ns = some nd)
    (hw : alookup k ws = some w) :
    alookup k (ns.foldl (pollStep ws) cs) = some (pollEntry nd w) := by
  induction ns generalizing cs with
  | nil => simp [alookup] at hk
  | cons q rest ih =>
    simp only [List.map_cons, List.nodup_cons] at hnd
    by_cases h2 : q.1 = k
    · simp only [alookup, h2, if_true, Option.some.injEq] at hk
      subst hk
      simp only [List.foldl_cons]
      rw [alookup_pollStep_fold_of_not_mem ws rest _ k (h2 ▸ hnd.1)]
      unfold pollStep
      rw [h2, hw]
      exact alookup_aset_self _ _ _
    · simp only [alookup, h2, if_false] at hk
      simp only [List.foldl_cons]
      exact ih _ hnd.2 hk

/-- Claim C5 counterexample: after `LaunchPod p(2)` onto node_1 and a
successful `DeletePod node_1 p`, the aggregated status (`cached_status`)
still contains `p` — the handler removes the pod only from the worker. -/
theorem C5_delete_pod_counterexample :
    (delete_pod (launch_pod cfgFF 0 sOneEmpty "p" 2).2 1 "p").1 = ApiResult.ok ∧
    (∃ pods,
      alookup 1 (delete_pod (launch_pod cfgFF 0 sOneEmpty "p" 2).2 1 "p").2.cachedStatus
        = some pods ∧ (alookup "p" pods).isSome) := by
  refine ⟨by decide, ⟨[("p", ⟨2, 0, true⟩)], by decide, by decide⟩⟩

/-- Claim C5, amended.  A successful `DeletePod` removes the pod only from the
addressed worker's pod map; the control plane's cached aggregated
status, the pending queue (which is not drained), the registry and the
counter are untouched, and the aggregated view becomes free of the pod
only when the next metrics poll rebuilds that node's entry from the
worker. -/
theorem C5_delete_pod_amended (s : ClusterState) (nid : Nat) (pid : String)
    (hnd : (s.nodes.map Prod.fst).Nodup) (hpods : podsKeysNodup s)
    (hok : (delete_pod s nid pid).1 = ApiResult.ok) :
    (∃ w2, alookup nid (delete_pod s nid pid).2.workers = some w2 ∧
      alookup pid w2.pods = none) ∧
    (delete_pod s nid pid).2.nodes = s.nodes ∧
    (delete_pod s nid pid).2.cachedStatus = s.cachedStatus ∧
    (delete_pod s nid pid).2.pendingPods = s.pendingPods ∧
    (delete_pod s nid pid).2.nodeCounter = s.nodeCounter ∧
    (∀ pods,
      alookup nid (poll_metrics_once (delete_pod s nid pid).2).cachedStatus
        = some pods → alookup pid pods = none) := by
  unfold delete_pod at hok
  split at hok
  · exact absurd hok (by simp)
  next nd h1 =>
    split at hok
    · exact absurd hok (by simp)
    next w h2 =>
      unfold deletePodSend at hok
      split at hok
      next w2 h3 =>
        have hw2pods : w2.pods = aerase pid w.pods := by
          unfold workerDeletePod at h3
          split at h3
          · simp only [Option.some.injEq] at h3
            rw [← h3]
          · exact absurd h3 (by simp)
        have hpidout : alookup pid w2.pods = none := by
          rw [hw2pods]
          exact alookup_aerase_self pid (hpods (nid, w) (alookup_mem h2))
        have heq : delete_pod s nid pid =
            (ApiResult.ok, { s with workers := aset nid w2 s.workers }) := by
          unfold delete_pod
          rw [h1, h2]
          show deletePodSend s nid pid w = _
          unfold deletePodSend
          rw [h3]
        rw [heq]
        refine ⟨⟨w2, alookup_aset_self _ _ _, hpidout⟩, rfl, rfl, rfl, rfl, ?_⟩
        intro pods hpoll
        unfold poll_metrics_once at hpoll
        rw [alookup_pollStep_fold _ _ _ nid nd w2 hnd h1
          (alookup_aset_self _ _ _)] at hpoll
        simp only [Option.some.injEq] at hpoll
        subst hpoll
        refine alookup_eq_none.2 ?_
        unfold pollEntry
        rw [keys_map_pair]
        rw [hw2pods]
        exact alookup_eq_none.1 (alookup_aerase_self pid
          (hpods (nid, w) (alookup_mem h2)))
      next => exact absurd hok (by simp)

/-- Witness for C5's amended statement: the concrete launch-then-delete
scenario, with the worker map free of `p` afterwards. -/
theorem C5_delete_pod_amended_witness :
    ∃ w2, alookup 1 (delete_pod (launch_pod cfgFF 0 sOneEmpty "p" 2).2 1 "p").2.workers
        = some w2 ∧ alookup "p" w2.pods = none :=
  (C5_delete_pod_amended (launch_pod cfgFF 0 sOneEmpty "p" 2).2 1 "p"
    (by decide)
    (by unfold podsKeysNodup; decide)
    (by decide)).1

/-! ## Worst-fit characterization (C8) -/

theorem worstRel_avail_le {m : Nat} {a : Alloc} {q : Nat × Alloc}
    (h : worstRel (m, a) q) : q.2.available ≤ a.available := by
  rcases h with h | ⟨h, _⟩
  · exact le_of_lt h
  · exact le_of_eq h.symm

theorem wfScan_of_no_fit (req : Int) (l : AllocList) (acc : Option (Nat × Int))
    (h : ∀ p ∈ l, ¬ req ≤ p.2.available) : wfScan req l acc = acc := by
  induction l generalizing acc with
  | nil => rfl
  | cons q rest ih =>
    obtain ⟨nid, a⟩ := q
    simp only [wfScan]
    rw [if_neg (h (nid, a) (List.mem_cons_self _ _))]
    exact ih _ (fun p hp => h p (List.mem_cons_of_mem _ hp))

theorem wfScan_const (req : Int) (m : Nat) (a : Alloc) (l : AllocList)
    (hall : ∀ q ∈ l, worstRel (m, a) q) (hfit : req ≤ a.available) :
    wfScan req l (some (m, a.available - req)) = some (m, a.available - req) := by
  induction l with
  | nil => rfl
  | cons q rest ih =>
    obtain ⟨n2, b⟩ := q
    have hrel := hall (n2, b) (List.mem_cons_self _ _)
    have ihr := ih (fun p hp => hall p (List.mem_cons_of_mem _ hp))
    simp only [wfScan]
    by_cases hf : req ≤ b.available
    · rw [if_pos hf]
      rcases hrel with hlt | ⟨heq, hle⟩
      · rw [if_neg (by simp only [not_lt]; exact sub_le_sub_right (le_of_lt hlt) req)]
        rw [if_neg (by
          rintro ⟨h1, _⟩
          have : b.available = a.available := by linarith [sub_left_injective.eq_iff.1 h1]
          exact absurd this (ne_of_lt hlt))]
        exact ihr
      · rw [if_neg (by simp only [not_lt]; exact sub_le_sub_right (le_of_eq heq.symm) req)]
        rw [if_neg (by rintro ⟨_, h2⟩; exact absurd h2 (not_lt.2 hle))]
        exact ihr
    · rw [if_neg hf]
      exact ihr

theorem worstFitFind_spec (req : Int) (allocs : AllocList)
    (hex : ∃ p ∈ allocs, req ≤ p.2.available) :
    ∃ n a, worstFitFind req allocs = some n ∧ (n, a) ∈ allocs ∧
      req ≤ a.available ∧
      (∀ p ∈ allocs, req ≤ p.2.available →
        p.2.available - req ≤ a.available - req) ∧
      (∀ p ∈ allocs, req ≤ p.2.available →
        p.2.available - req = a.available - req → n ≤ p.1) := by
  obtain ⟨p0, hp0mem, hp0fit⟩ := hex
  have hperm := List.perm_insertionSort worstRel allocs
  have hsorted := List.sorted_insertionSort worstRel allocs
  cases hS : List.insertionSort worstRel allocs with
  | nil =>
    rw [hS] at hperm
    exact absurd (hperm.symm.subset hp0mem) (by simp)
  | cons hd tl =>
    obtain ⟨m, a⟩ := hd
    rw [hS] at hperm hsorted
    have hall : ∀ q ∈ tl, worstRel (m, a) q :=
      fun q hq => List.rel_of_sorted_cons hsorted q hq
    have hmemS : ∀ p ∈ allocs, p ∈ (m, a) :: tl := fun p hp => hperm.symm.subset hp
    have hfit : req ≤ a.available := by
      rcases List.mem_cons.1 (hmemS p0 hp0mem) with h | h
      · rw [h] at hp0fit; exact hp0fit
      · exact le_trans hp0fit (worstRel_avail_le (hall p0 h))
    have hscan : wfScan req ((m, a) :: tl) none = some (m, a.available - req) := by
      simp only [wfScan]
      rw [if_pos hfit]
      rw [if_pos (by linarith)]
      exact wfScan_const req m a tl hall hfit
    refine ⟨m, a, ?_, hperm.subset (List.mem_cons_self _ _), hfit, ?_, ?_⟩
    · unfold worstFitFind
      rw [hS, hscan]
      rfl
    · intro p hp hpfit
      rcases List.mem_cons.1 (hmemS p hp) with h | h
      · rw [h]
      · exact sub_le_sub_right (worstRel_avail_le (hall p h)) req
    · intro p hp hpfit hprem
      rcases List.mem_cons.1 (hmemS p hp) with h | h
      · rw [h]
      · rcases hall p h with hlt | ⟨heq, hle⟩
        · have : p.2.available = a.available := by
            have := sub_left_injective.eq_iff.1 hprem
            linarith [this]
          exact absurd this (ne_of_lt hlt)
        · exact hle

/-- Claim C8.  Under the worst-fit policy, whenever some node fits, the chosen
node's `remaining = available - cpu_request` equals the maximum of
`available - cpu_request` over all fitting nodes, and among the nodes
achieving that maximum the one with the lowest numeric node_id suffix is
chosen. -/
theorem C8_worst_fit (cfg : Config) (halgo : cfg.SCHEDULING_ALGO = .worstFit)
    (req : Int) (allocs : AllocList) (hreq : 0 < req)
    (hex : ∃ p ∈ allocs, req ≤ p.2.available) :
    ∃ n a, find_node_for_pod cfg req allocs = some n ∧ (n, a) ∈ allocs ∧
      req ≤ a.available ∧
      (∀ p ∈ allocs, req ≤ p.2.available →
        p.2.available - req ≤ a.available - req) ∧
      (∀ p ∈ allocs, req ≤ p.2.available →
        p.2.available - req = a.available - req → n ≤ p.1) := by
  unfold find_node_for_pod
  rw [halgo]
  exact worstFitFind_spec req allocs hex

/-- Witness for C8: on `allocsW` with `req = 3` the scheduler picks
node_2, whose remaining 3 is the maximum over fitting nodes. -/
theorem C8_worst_fit_witness :
    ∃ n a, find_node_for_pod cfgWF 3 allocsW = some n ∧ (n, a) ∈ allocsW ∧
      (3 : Int) ≤ a.available ∧
      (∀ p ∈ allocsW, (3 : Int) ≤ p.2.available →
        p.2.available - 3 ≤ a.available - 3) ∧
      (∀ p ∈ allocsW, (3 : Int) ≤ p.2.available →
        p.2.available - 3 = a.available - 3 → n ≤ p.1) :=
  C8_worst_fit cfgWF rfl 3 allocsW (by decide)
    ⟨(2, ⟨0, 6, 6⟩), by decide, by decide⟩

/-! ## Best-fit characterization (C3) -/

theorem bfScan_some_props (req : Int) (l : AllocList) :
    l.Pairwise (fun p q => p.1 < q.1) →
    ∀ (c : Nat) (ca : Alloc), req ≤ ca.available → (∀ p ∈ l, c < p.1) →
    ∃ b ba, bfScan req l (some (c, ca)) = some (b, ba) ∧
      req ≤ ba.available ∧
      ((b, ba) = (c, ca) ∨ (b, ba) ∈ l) ∧
      ba.available - req ≤ ca.available - req ∧
      (∀ p ∈ l, req ≤ p.2.available → ba.available - req ≤ p.2.available - req) ∧
      (ba.available - req = ca.available - req → b = c) ∧
      (∀ p ∈ l, req ≤ p.2.available →
        p.2.available - req = ba.available - req → b ≤ p.1) := by
  induction l with
  | nil =>
    intro _ c ca hcfit _
    exact ⟨c, ca, rfl, hcfit, Or.inl rfl, le_refl _, by simp, fun _ => rfl, by simp⟩
  | cons q rest ih =>
    intro hp c ca hcfit hlt
    obtain ⟨n2, b⟩ := q
    rcases List.pairwise_cons.1 hp with ⟨hq, hrest⟩
    simp only [bfScan]
    by_cases hf : req ≤ b.available
    · rw [if_pos hf]
      by_cases himp : b.available - req < ca.available - req
      · rw [if_pos himp]
        obtain ⟨bb, bba, hrun, hbfit, hmem, hle, hmin, htieq, htie⟩ :=
          ih hrest n2 b hf hq
        refine ⟨bb, bba, hrun, hbfit, ?_, ?_, ?_, ?_, ?_⟩
        · rcases hmem with h | h
          · exact Or.inr (by rw [h]; exact List.mem_cons_self _ _)
          · exact Or.inr (List.mem_cons_of_mem _ h)
        · exact le_trans hle (le_of_lt himp)
        · intro p hp2 hpfit
          rcases List.mem_cons.1 hp2 with h | h
          · rw [h]; exact hle
          · exact hmin p h hpfit
        · intro heq2
          exact absurd heq2 (ne_of_lt (lt_of_le_of_lt hle himp))
        · intro p hp2 hpfit hprem
          rcases List.mem_cons.1 hp2 with h | h
          · have hbrem : b.available - req = bba.available - req := by
              rw [h] at hprem; exact hprem
            have hbc := htieq hbrem.symm
            rw [h, hbc]
          · exact htie p h hpfit hprem
      · rw [if_neg himp]
        obtain ⟨bb, bba, hrun, hbfit, hmem, hle, hmin, htieq, htie⟩ :=
          ih hrest c ca hcfit (fun p hp2 => hlt p (List.mem_cons_of_mem _ hp2))
        refine ⟨bb, bba, hrun, hbfit, ?_, hle, ?_, htieq, ?_⟩
        · rcases hmem with h | h
          · exact Or.inl h
          · exact Or.inr (List.mem_cons_of_mem _ h)
        · intro p hp2 hpfit
          rcases List.mem_cons.1 hp2 with h | h
          · rw [h]
            exact le_trans hle (not_lt.1 himp)
          · exact hmin p h hpfit
        · intro p hp2 hpfit hprem
          rcases List.mem_cons.1 hp2 with h | h
          · have hbrem : b.available - req = bba.available - req := by
              rw [h] at hprem; exact hprem
            have heqc : bba.available - req = ca.available - req :=
              le_antisymm hle (by rw [← hbrem]; exact not_lt.1 himp)
            have hbc := htieq heqc
            rw [h, hbc]
            exact le_of_lt (hlt (n2, b) (List.mem_cons_self _ _))
          · exact htie p h hpfit hprem
    · rw [if_neg hf]
      obtain ⟨bb, bba, hrun, hbfit, hmem, hle, hmin, htieq, htie⟩ :=
        ih hrest c ca hcfit (fun p hp2 => hlt p (List.mem_cons_of_mem _ hp2))
      refine ⟨bb, bba, hrun, hbfit, ?_, hle, ?_, htieq, ?_⟩
      · rcases hmem with h | h
        · exact Or.inl h
        · exact Or.inr (List.mem_cons_of_mem _ h)
      · intro p hp2 hpfit
        rcases List.mem_cons.1 hp2 with h | h
        · rw [h] at hpfit; exact absurd hpfit hf
        · exact hmin p h hpfit
      · intro p hp2 hpfit hprem
        rcases List.mem_cons.1 hp2 with h | h
        · rw [h] at hpfit; exact absurd hpfit hf
        · exact htie p h hpfit hprem

theorem bfScan_none_spec (req : Int) (l : AllocList)
    (hp : l.Pairwise (fun p q => p.1 < q.1))
    (hex : ∃ p ∈ l, req ≤ p.2.available) :
    ∃ b ba, bfScan req l none = some (b, ba) ∧ (b, ba) ∈ l ∧
      req ≤ ba.available ∧
      (∀ p ∈ l, req ≤ p.2.available → ba.available - req ≤ p.2.available - req) ∧
      (∀ p ∈ l, req ≤ p.2.available →
        p.2.available - req = ba.available - req → b ≤ p.1) := by
  induction l with
  | nil => obtain ⟨p, hp2, _⟩ := hex; simp at hp2
  | cons q rest ih =>
    obtain ⟨n2, b⟩ := q
    rcases List.pairwise_cons.1 hp with ⟨hq, hrest⟩
    simp only [bfScan]
    by_cases hf : req ≤ b.available
    · rw [if_pos hf]
      obtain ⟨bb, bba, hrun, hbfit, hmem, hle, hmin, htieq, htie⟩ :=
        bfScan_some_props req rest hrest n2 b hf hq
      refine ⟨bb, bba, hrun, ?_, hbfit, ?_, ?_⟩
      · rcases hmem with h | h
        · rw [h]; exact List.mem_cons_self _ _
        · exact List.mem_cons_of_mem _ h
      · intro p hp2 hpfit
        rcases List.mem_cons.1 hp2 with h | h
        · rw [h]; exact hle
        · exact hmin p h hpfit
      · intro p hp2 hpfit hprem
        rcases List.mem_cons.1 hp2 with h | h
        · have hbrem : b.available - req = bba.available - req := by
            rw [h] at hprem; exact hprem
          have hbc := htieq hbrem.symm
          rw [h, hbc]
        · exact htie p h hpfit hprem
    · rw [if_neg hf]
      have hex2 : ∃ p ∈ rest, req ≤ p.2.available := by
        obtain ⟨p, hp2, hpf⟩ := hex
        rcases List.mem_cons.1 hp2 with h | h
        · rw [h] at hpf; exact absurd hpf hf
        · exact ⟨p, h, hpf⟩
      obtain ⟨bb, bba, hrun, hmem, hbfit, hmin, htie⟩ := ih hrest hex2
      refine ⟨bb, bba, hrun, List.mem_cons_of_mem _ hmem, hbfit, ?_, ?_⟩
      · intro p hp2 hpfit
        rcases List.mem_cons.1 hp2 with h | h
        · rw [h] at hpfit; exact absurd hpfit hf
        · exact hmin p h hpfit
      · intro p hp2 hpfit hprem
        rcases List.mem_cons.1 hp2 with h | h
        · rw [h] at hpfit; exact absurd hpfit hf
        · exact htie p h hpfit hprem

theorem maxCapScan_mem (l : AllocList) : ∀ c, maxCapScan l c ∈ c :: l := by
  induction l with
  | nil => intro c; simp [maxCapScan]
  | cons p rest ih =>
    intro c
    simp only [maxCapScan]
    by_cases h : p.2.capacity > c.2.capacity
    · rw [if_pos h]
      exact List.mem_cons_of_mem _ (ih p)
    · rw [if_neg h]
      rcases List.mem_cons.1 (ih c) with h2 | h2
      · rw [h2]; exact List.mem_cons_self _ _
      · exact List.mem_cons_of_mem _ (List.mem_cons_of_mem _ h2)

theorem maxCapScan_max (l : AllocList) :
    ∀ c, ∀ q ∈ c :: l, q.2.capacity ≤ (maxCapScan l c).2.capacity := by
  induction l with
  | nil =>
    intro c q hq
    rcases List.mem_cons.1 hq with h | h
    · rw [h]; exact le_refl _
    · simp at h
  | cons p rest ih =>
    intro c q hq
    simp only [maxCapScan]
    by_cases h : p.2.capacity > c.2.capacity
    · rw [if_pos h]
      rcases List.mem_cons.1 hq with h2 | h2
      · rw [h2]
        exact le_trans (le_of_lt h) (ih p p (List.mem_cons_self _ _))
      · rcases List.mem_cons.1 h2 with h3 | h3
        · rw [h3]; exact ih p p (List.mem_cons_self _ _)
        · exact ih p q (List.mem_cons_of_mem _ h3)
    · rw [if_neg h]
      rcases List.mem_cons.1 hq with h2 | h2
      · rw [h2]; exact ih c c (List.mem_cons_self _ _)
      · rcases List.mem_cons.1 h2 with h3 | h3
        · rw [h3]
          exact le_trans (not_lt.1 h) (ih c c (List.mem_cons_self _ _))
        · exact ih c q (List.mem_cons_of_mem _ h3)

theorem pair_eq_of_key_eq {l : AllocList} (h : l.Pairwise (fun p q => p.1 < q.1))
    {p q : Nat × Alloc} (hp : p ∈ l) (hq : q ∈ l) (hk : p.1 = q.1) : p = q := by
  induction l with
  | nil => simp at hp
  | cons x rest ih =>
    rcases List.pairwise_cons.1 h with ⟨hx, hrest⟩
    rcases List.mem_cons.1 hp with h1 | h1 <;> rcases List.mem_cons.1 hq with h2 | h2
    · rw [h1, h2]
    · exfalso
      rw [h1] at hk
      exact absurd hk (ne_of_lt (hx q h2))
    · exfalso
      rw [h2] at hk
      exact absurd hk.symm (ne_of_lt (hx p h1))
    · exact ih hrest h1 h2

theorem bestFitFind_spec (req : Int) (allocs : AllocList)
    (hsorted : allocs.Pairwise (fun p q => p.1 < q.1))
    (hone : ∀ p ∈ allocs, 1 ≤ p.1)
    (hex : ∃ p ∈ allocs, req ≤ p.2.available) :
    ∃ n a, bestFitFind req allocs = some n ∧ (n, a) ∈ allocs ∧
      req ≤ a.available ∧
      (∀ p ∈ allocs, req ≤ p.2.available →
        a.available - req ≤ p.2.available - req) ∧
      ((∃ a1 a2, (1, a1) ∈ allocs ∧ (2, a2) ∈ allocs ∧ req ≤ a1.available ∧
          req ≤ a2.available ∧
          (∀ p ∈ allocs, req ≤ p.2.available →
            a1.available - req ≤ p.2.available - req) ∧
          a2.available - req = a1.available - req) → n = 2) ∧
      (¬ (∃ a1 a2, (1, a1) ∈ allocs ∧ (2, a2) ∈ allocs ∧ req ≤ a1.available ∧
          req ≤ a2.available ∧
          (∀ p ∈ allocs, req ≤ p.2.available →
            a1.available - req ≤ p.2.available - req) ∧
          a2.available - req = a1.available - req) →
        ∀ p ∈ allocs, req ≤ p.2.available →
          p.2.available - req = a.available - req → p.2.capacity ≤ a.capacity) := by
  have hperm := List.perm_insertionSort suffixLe allocs
  have hSp : (List.insertionSort suffixLe allocs).Pairwise (fun p q => p.1 < q.1) :=
    ((List.sorted_insertionSort suffixLe allocs).and
      ((hperm.pairwise_iff (fun h2 => Ne.symm h2)).2
        (hsorted.imp (fun h => ne_of_lt h)))).imp
      (fun h => lt_of_le_of_ne h.1 h.2)
  have hexS : ∃ p ∈ List.insertionSort suffixLe allocs, req ≤ p.2.available := by
    obtain ⟨p, hp2, hpf⟩ := hex
    exact ⟨p, hperm.symm.subset hp2, hpf⟩
  obtain ⟨best, ba, hrun, hmemS, hbfit, hminS, htieS⟩ :=
    bfScan_none_spec req (List.insertionSort suffixLe allocs) hSp hexS
  have hmemA : ∀ {p : Nat × Alloc},
      p ∈ List.insertionSort suffixLe allocs ↔ p ∈ allocs := fun {p} => hperm.mem_iff
  have hminA : ∀ p ∈ allocs, req ≤ p.2.available →
      ba.available - req ≤ p.2.available - req :=
    fun p hp hf => hminS p (hmemA.2 hp) hf
  have htieA : ∀ p ∈ allocs, req ≤ p.2.available →
      p.2.available - req = ba.available - req → best ≤ p.1 :=
    fun p hp hf hr => htieS p (hmemA.2 hp) hf hr
  set T := bfTied req (List.insertionSort suffixLe allocs) best (ba.available - req)
    with hT
  have htied_iff : ∀ p, p ∈ T ↔
      (p ∈ allocs ∧ p.1 ≠ best ∧ req ≤ p.2.available ∧
        p.2.available - req = ba.available - req) := by
    intro p
    rw [hT]
    unfold bfTied
    rw [List.mem_filter]
    constructor
    · rintro ⟨hmem, hcond⟩
      simp only [Bool.and_eq_true, bne_iff_ne, beq_iff_eq, fitsB,
        decide_eq_true_eq] at hcond
      exact ⟨hmemA.1 hmem, hcond.1.1, hcond.1.2, hcond.2⟩
    · rintro ⟨hmem, hneq, hfit, hrem⟩
      refine ⟨hmemA.2 hmem, ?_⟩
      simp only [Bool.and_eq_true, bne_iff_ne, beq_iff_eq, fitsB,
        decide_eq_true_eq]
      exact ⟨⟨hneq, hfit⟩, hrem⟩
  have hminimiser : ∀ p ∈ allocs, req ≤ p.2.available →
      p.2.available - req = ba.available - req → p = (best, ba) ∨ p ∈ T := by
    intro p hp hf hr
    by_cases hk : p.1 = best
    · left
      exact pair_eq_of_key_eq hSp (hmemA.2 hp) hmemS hk
    · right
      exact (htied_iff p).2 ⟨hp, hk, hf, hr⟩
  have htmem : ∀ p ∈ T, p ∈ allocs ∧ req ≤ p.2.available ∧
      p.2.available - req = ba.available - req := by
    intro p hp
    obtain ⟨h1, _, h3, h4⟩ := (htied_iff p).1 hp
    exact ⟨h1, h3, h4⟩
  have hspecial : (∃ a1 a2, (1, a1) ∈ allocs ∧ (2, a2) ∈ allocs ∧
      req ≤ a1.available ∧ req ≤ a2.available ∧
      (∀ p ∈ allocs, req ≤ p.2.available →
        a1.available - req ≤ p.2.available - req) ∧
      a2.available - req = a1.available - req) →
      (T.any (fun p => p.1 == 2) = true ∧ best = 1) := by
    rintro ⟨a1, a2, h1mem, h2mem, h1fit, h2fit, h1min, h2rem⟩
    have h1rem : a1.available - req = ba.available - req :=
      le_antisymm (h1min (best, ba) (hmemA.1 hmemS) hbfit)
        (hminA (1, a1) h1mem h1fit)
    have hbest1 : best = 1 := by
      have hb := htieA (1, a1) h1mem h1fit h1rem
      have hbg := hone (best, ba) (hmemA.1 hmemS)
      omega
    have h2tied : (2, a2) ∈ T := by
      refine (htied_iff _).2 ⟨h2mem, ?_, h2fit, ?_⟩
      · rw [hbest1]
        show (2 : Nat) ≠ 1
        decide
      · rw [h2rem, h1rem]
    constructor
    · rw [List.any_eq_true]
      refine ⟨(2, a2), h2tied, ?_⟩
      show ((2 : Nat) == 2) = true
      rfl
    · exact hbest1
  have hbf : bestFitFind req allocs = (
      if T.isEmpty then some best
      else if T.any (fun p => p.1 == 2) && (best == 1) then some 2
      else if (maxCapScan T (best, ba)).1 ≠ best
        then some (maxCapScan T (best, ba)).1
      else some best) := by
    rw [hT]
    unfold bestFitFind
    dsimp only
    rw [hrun]
  rw [hbf]
  by_cases hA : T.isEmpty = true
  · rw [if_pos hA]
    refine ⟨best, ba, rfl, hmemA.1 hmemS, hbfit, hminA, ?_, fun _ => ?_⟩
    · intro hsp
      obtain ⟨hany, _⟩ := hspecial hsp
      rw [List.any_eq_true] at hany
      obtain ⟨p, hp2, _⟩ := hany
      rw [List.isEmpty_iff] at hA
      rw [hA] at hp2
      simp at hp2
    · intro p hp hf hr
      rcases hminimiser p hp hf hr with h | h
      · rw [h]
      · rw [List.isEmpty_iff] at hA
        rw [hA] at h
        simp at h
  · rw [if_neg hA]
    by_cases hB : (T.any (fun p => p.1 == 2) && (best == 1)) = true
    · rw [if_pos hB]
      simp only [Bool.and_eq_true, List.any_eq_true, beq_iff_eq] at hB
      obtain ⟨⟨p2, hp2mem, hp2key⟩, hbest1⟩ := hB
      obtain ⟨hp2A, hp2fit, hp2rem⟩ := htmem p2 hp2mem
      refine ⟨2, p2.2, rfl, ?_, hp2fit, ?_, fun _ => rfl, fun hns => ?_⟩
      · rw [← hp2key]
        exact hp2A
      · intro p hp hf
        rw [hp2rem]
        exact hminA p hp hf
      · exact (hns ⟨ba, p2.2, by rw [← hbest1]; exact hmemA.1 hmemS,
          by rw [← hp2key]; exact hp2A, hbfit, hp2fit, hminA, hp2rem⟩).elim
    · rw [if_neg hB]
      have hnospec : ¬ (∃ a1 a2, (1, a1) ∈ allocs ∧ (2, a2) ∈ allocs ∧
          req ≤ a1.available ∧ req ≤ a2.available ∧
          (∀ p ∈ allocs, req ≤ p.2.available →
            a1.available - req ≤ p.2.available - req) ∧
          a2.available - req = a1.available - req) := by
        intro hsp
        obtain ⟨hany, hbest1⟩ := hspecial hsp
        refine hB ?_
        rw [Bool.and_eq_true]
        exact ⟨hany, by rw [beq_iff_eq]; exact hbest1⟩
      have hHmem := maxCapScan_mem T (best, ba)
      have hHmax := maxCapScan_max T (best, ba)
      by_cases hC : (maxCapScan T (best, ba)).1 ≠ best
      · rw [if_pos hC]
        have hHA : maxCapScan T (best, ba) ∈ allocs ∧
            req ≤ (maxCapScan T (best, ba)).2.available ∧
            (maxCapScan T (best, ba)).2.available - req
              = ba.available - req := by
          rcases List.mem_cons.1 hHmem with h | h
          · exact absurd (by rw [h]) hC
          · exact ⟨(htmem _ h).1, (htmem _ h).2.1, (htmem _ h).2.2⟩
        refine ⟨(maxCapScan T (best, ba)).1, (maxCapScan T (best, ba)).2,
          rfl, ?_, hHA.2.1, ?_, fun hsp => (hnospec hsp).elim, fun _ => ?_⟩
        · exact hHA.1
        · intro p hp hf
          rw [hHA.2.2]
          exact hminA p hp hf
        · intro p hp hf hr
          have hr2 : p.2.available - req = ba.available - req := by
            rw [hr, hHA.2.2]
          rcases hminimiser p hp hf hr2 with h | h
          · rw [h]
            exact hHmax (best, ba) (List.mem_cons_self _ _)
          · exact hHmax p (List.mem_cons_of_mem _ h)
      · rw [if_neg hC]
        push_neg at hC
        have hHeq : maxCapScan T (best, ba) = (best, ba) := by
          rcases List.mem_cons.1 hHmem with h | h
          · exact h
          · exact absurd hC ((htied_iff _).1 h).2.1
        refine ⟨best, ba, rfl, hmemA.1 hmemS, hbfit, hminA,
          fun hsp => (hnospec hsp).elim, fun _ => ?_⟩
        intro p hp hf hr
        rcases hminimiser p hp hf hr with h | h
        · rw [h]
        · have hm := hHmax p (List.mem_cons_of_mem _ h)
          rw [hHeq] at hm
          exact hm

/-- Claim C3 counterexample.  On the snapshot `allocsC3` with `req = 2` the
remaining-capacity tie set is `{node_1, node_2, node_3}` — not exactly
`{node_1, node_2}` — so the claim requires the highest-capacity tied
node (node_3, capacity 8).  The source's carve-out at src/app.py:568-571
fires anyway (node_2 is tied and the first-pass pick is node_1) and
best-fit returns node_2, violating the claim's selection rule. -/
theorem C3_best_fit_counterexample :
    bestFitFind 2 allocsC3 = some 2 ∧
    (allocsC3.filter (fun p => fitsB 2 p.2 && (p.2.available - 2 == 0))).map Prod.fst
      = [1, 2, 3] ∧
    bestFitClaimCheck 2 allocsC3 2 = false := by
  refine ⟨by decide, by decide, by decide⟩

/-- Claim C3, amended.  Under the best-fit policy, with a suffix-sorted
snapshot (ids ≥ 1, as the registry produces) containing a fitting node,
the scheduler returns a node that fits and minimises
`remaining = available - cpu_request`; whenever node_1 and node_2 are
both tied at the minimum, node_2 is chosen — regardless of what other
nodes are tied or their capacities; in every other case the chosen node
has maximal total capacity among the tied minimisers. -/
theorem C3_best_fit_amended (cfg : Config)
    (halgo : cfg.SCHEDULING_ALGO = .bestFit) (req : Int) (allocs : AllocList)
    (hsorted : allocs.Pairwise (fun p q => p.1 < q.1))
    (hone : ∀ p ∈ allocs, 1 ≤ p.1)
    (hex : ∃ p ∈ allocs, req ≤ p.2.available) :
    ∃ n a, find_node_for_pod cfg req allocs = some n ∧ (n, a) ∈ allocs ∧
      req ≤ a.available ∧
      (∀ p ∈ allocs, req ≤ p.2.available →
        a.available - req ≤ p.2.available - req) ∧
      ((∃ a1 a2, (1, a1) ∈ allocs ∧ (2, a2) ∈ allocs ∧ req ≤ a1.available ∧
          req ≤ a2.available ∧
          (∀ p ∈ allocs, req ≤ p.2.available →
            a1.available - req ≤ p.2.available - req) ∧
          a2.available - req = a1.available - req) → n = 2) ∧
      (¬ (∃ a1 a2, (1, a1) ∈ allocs ∧ (2, a2) ∈ allocs ∧ req ≤ a1.available ∧
          req ≤ a2.available ∧
          (∀ p ∈ allocs, req ≤ p.2.available →
            a1.available - req ≤ p.2.available - req) ∧
          a2.available - req = a1.available - req) →
        ∀ p ∈ allocs, req ≤ p.2.available →
          p.2.available - req = a.available - req → p.2.capacity ≤ a.capacity) := by
  unfold find_node_for_pod
  rw [halgo]
  exact bestFitFind_spec req allocs hsorted hone hex

/-- Witness for C3's amended statement, at the counterexample snapshot:
the chosen node fits and minimises remaining. -/
theorem C3_best_fit_amended_witness :
    ∃ n a, find_node_for_pod cfgBF 2 allocsC3 = some n ∧ (n, a) ∈ allocsC3 ∧
      (2 : Int) ≤ a.available ∧
      (∀ p ∈ allocsC3, (2 : Int) ≤ p.2.available →
        a.available - 2 ≤ p.2.available - 2) ∧
      ((∃ a1 a2, (1, a1) ∈ allocsC3 ∧ (2, a2) ∈ allocsC3 ∧
          (2 : Int) ≤ a1.available ∧ (2 : Int) ≤ a2.available ∧
          (∀ p ∈ allocsC3, (2 : Int) ≤ p.2.available →
            a1.available - 2 ≤ p.2.available - 2) ∧
          a2.available - 2 = a1.available - 2) → n = 2) ∧
      (¬ (∃ a1 a2, (1, a1) ∈ allocsC3 ∧ (2, a2) ∈ allocsC3 ∧
          (2 : Int) ≤ a1.available ∧ (2 : Int) ≤ a2.available ∧
          (∀ p ∈ allocsC3, (2 : Int) ≤ p.2.available →
            a1.available - 2 ≤ p.2.available - 2) ∧
          a2.available - 2 = a1.available - 2) →
        ∀ p ∈ allocsC3, (2 : Int) ≤ p.2.available →
          p.2.available - 2 = a.available - 2 → p.2.capacity ≤ a.capacity) :=
  C3_best_fit_amended cfgBF rfl 2 allocsC3 (by decide) (by decide)
    ⟨(1, ⟨2, 4, 2⟩), by decide, by decide⟩

/-! ## Duplicate pod launches (C2) -/

/-- Claim C2 counterexample: from two empty capacity-4 nodes, launching pod
`p` (3 cores) succeeds on node_1 and a second launch of the same
`pod_id` also succeeds, on node_2; afterwards `p` is in both nodes'
worker pod maps — the serialising rejection the claim describes does not
exist in the source (its own test
`test_edge_cases.test_launch_pod_with_same_id` asserts the 200). -/
theorem C2_duplicate_launch_counterexample :
    (launch_pod cfgFF 0 sTwoEmpty "p" 3).1 = LaunchResult.success "p" 1 ∧
    (launch_pod cfgFF 0 (launch_pod cfgFF 0 sTwoEmpty "p" 3).2 "p" 3).1
      = LaunchResult.success "p" 2 ∧
    (∃ w, alookup 1
        (launch_pod cfgFF 0 (launch_pod cfgFF 0 sTwoEmpty "p" 3).2 "p" 3).2.workers
        = some w ∧ (alookup "p" w.pods).isSome) ∧
    (∃ w, alookup 2
        (launch_pod cfgFF 0 (launch_pod cfgFF 0 sTwoEmpty "p" 3).2 "p" 3).2.workers
        = some w ∧ (alookup "p" w.pods).isSome) := by
  refine ⟨by decide, by decide,
    ⟨⟨4, [("p", 3)]⟩, by decide, by decide⟩,
    ⟨⟨4, [("p", 3)]⟩, by decide, by decide⟩⟩

/-- Claim C2, amended.  No layer deduplicates pod ids: a second `LaunchPod`
with an already-placed `pod_id` is not rejected and can also succeed,
placing the identifier on a second node (concrete run below).  What does
hold: within any single node's map the identifier keys at most one entry
(each worker's pods dict keeps distinct keys, preserved by every step),
and committing a placement never removes the identifier from the
pending queue. -/
theorem C2_duplicate_launch_amended (cfg : Config) :
    (∀ s s2 : ClusterState, Wf s → Step cfg s s2 → podsKeysNodup s2) ∧
    (∀ (s s2 : ClusterState) (nid : Nat) (pid : String) (req : Int),
      commitPlace s nid pid req = some s2 → s2.pendingPods = s.pendingPods) ∧
    ((launch_pod cfgFF 0 sTwoEmpty "p" 3).1 = LaunchResult.success "p" 1 ∧
     (launch_pod cfgFF 0 (launch_pod cfgFF 0 sTwoEmpty "p" 3).2 "p" 3).1
        = LaunchResult.success "p" 2 ∧
     (∃ w, alookup 1
        (launch_pod cfgFF 0 (launch_pod cfgFF 0 sTwoEmpty "p" 3).2 "p" 3).2.workers
        = some w ∧ (alookup "p" w.pods).isSome) ∧
     (∃ w, alookup 2
        (launch_pod cfgFF 0 (launch_pod cfgFF 0 sTwoEmpty "p" 3).2 "p" 3).2.workers
        = some w ∧ (alookup "p" w.pods).isSome)) := by
  refine ⟨fun s s2 hs hstep => (Wf_step hs hstep).2, ?_, by decide, by decide,
    ⟨⟨4, [("p", 3)]⟩, by decide, by decide⟩,
    ⟨⟨4, [("p", 3)]⟩, by decide, by decide⟩⟩
  intro s s2 nid pid req h
  unfold commitPlace at h
  split at h
  · exact absurd h (by simp)
  next w hw =>
    split at h
    · exact absurd h (by simp)
    next w2 hw2 =>
      simp only [Option.some.injEq] at h
      rw [← h]

/-- Witness for C2's amended statement: per-node key uniqueness holds
after a concrete launch step. -/
theorem C2_duplicate_launch_amended_witness :
    podsKeysNodup (launch_pod cfgFF 0 sTwoEmpty "p" 3).2 :=
  (C2_duplicate_launch_amended cfgFF).1 sTwoEmpty _
    (by unfold Wf nodesSorted podsKeysNodup sTwoEmpty
        refine ⟨⟨?_, ?_⟩, ?_⟩ <;> decide)
    (Step.launch 0 "p" 3 sTwoEmpty)

/-! ## Node removal: partition, ordering, pending queue (C6) -/

theorem commitPlace_pending {s s2 : ClusterState} {nid : Nat} {pid : String}
    {req : Int} (h : commitPlace s nid pid req = some s2) :
    s2.pendingPods = s.pendingPods := by
  unfold commitPlace at h
  split at h
  · exact absurd h (by simp)
  next w hw =>
    split at h
    · exact absurd h (by simp)
    next w2 hw2 =>
      simp only [Option.some.injEq] at h
      rw [← h]

theorem commitPlace_nodes {s s2 : ClusterState} {nid : Nat} {pid : String}
    {req : Int} (h : commitPlace s nid pid req = some s2) :
    s2.nodes = s.nodes ∧ s2.nodeCounter = s.nodeCounter := by
  unfold commitPlace at h
  split at h
  · exact absurd h (by simp)
  next w hw =>
    split at h
    · exact absurd h (by simp)
    next w2 hw2 =>
      simp only [Option.some.injEq] at h
      rw [← h]
      exact ⟨rfl, rfl⟩

theorem rescheduleCore_pendingPods {cfg : Config} {now : Int} {s : ClusterState}
    {pid : String} {req : Int} (hAS : cfg.AUTO_SCALE = false) :
    (rescheduleCore cfg now s pid req).2.pendingPods = s.pendingPods := by
  unfold rescheduleCore
  split
  · split
    next s2 h2 => exact commitPlace_pending h2
    next => rfl
  · rw [if_neg (by simp [hAS])]

theorem reschedule_pendingPods {cfg : Config} {now : Int} {s : ClusterState}
    {pid : String} {req : Int} (hAS : cfg.AUTO_SCALE = false) :
    (reschedule_pod cfg now s pid req).2.pendingPods = s.pendingPods := by
  unfold reschedule_pod
  by_cases he : s.nodes.isEmpty
  · rw [if_pos he, if_neg (by simp [hAS])]
  · rw [if_neg he]
    exact rescheduleCore_pendingPods hAS

theorem alookup_addNodeBasic_nodes {now cores : Int} {s : ClusterState} {nid : Nat}
    (hcnt : nid ≤ s.nodeCounter) (hgone : alookup nid s.nodes = none) :
    alookup nid (addNodeBasic now s cores).1.nodes = none := by
  unfold addNodeBasic
  dsimp only
  rw [alookup_append]
  rw [hgone]
  have : s.nodeCounter + 1 ≠ nid := by omega
  simp [alookup, this]

theorem addNodeBasic_nid_gone {now cores : Int} {s : ClusterState} {nid : Nat}
    (hcnt : nid ≤ s.nodeCounter) (hgone : alookup nid s.nodes = none) :
    alookup nid (addNodeBasic now s cores).1.nodes = none ∧
    nid ≤ (addNodeBasic now s cores).1.nodeCounter := by
  refine ⟨alookup_addNodeBasic_nodes hcnt hgone, ?_⟩
  unfold addNodeBasic
  dsimp only
  omega

theorem rescheduleCoreLocked_nid_gone {cfg : Config} {now : Int} {s : ClusterState}
    {pid : String} {req : Int} {nid : Nat}
    (hcnt : nid ≤ s.nodeCounter) (hgone : alookup nid s.nodes = none) :
    alookup nid (rescheduleCoreLocked cfg now s pid req).2.nodes = none ∧
    nid ≤ (rescheduleCoreLocked cfg now s pid req).2.nodeCounter := by
  unfold rescheduleCoreLocked
  dsimp only
  split
  · split
    next s2 h2 =>
      obtain ⟨hn, hc⟩ := commitPlace_nodes h2
      rw [hn, hc]
      exact ⟨hgone, hcnt⟩
    next => exact ⟨hgone, hcnt⟩
  · split
    · split
      next s3 h3 =>
        obtain ⟨hn, hc⟩ := commitPlace_nodes h3
        rw [hn, hc]
        exact addNodeBasic_nid_gone hcnt hgone
      next => exact addNodeBasic_nid_gone hcnt hgone
    · exact ⟨hgone, hcnt⟩

theorem reschedulePodLocked_nid_gone {cfg : Config} {now : Int} {s : ClusterState}
    {pid : String} {req : Int} {nid : Nat}
    (hcnt : nid ≤ s.nodeCounter) (hgone : alookup nid s.nodes = none) :
    alookup nid (reschedulePodLocked cfg now s pid req).2.nodes = none ∧
    nid ≤ (reschedulePodLocked cfg now s pid req).2.nodeCounter := by
  unfold reschedulePodLocked
  by_cases he : s.nodes.isEmpty
  · rw [if_pos he]
    by_cases hA : cfg.AUTO_SCALE
    · rw [if_pos hA]
      obtain ⟨hg1, hc1⟩ :=
        @addNodeBasic_nid_gone now cfg.DEFAULT_NODE_CAPACITY s nid hcnt hgone
      exact rescheduleCoreLocked_nid_gone hc1 hg1
    · rw [if_neg hA]
      exact ⟨hgone, hcnt⟩
  · rw [if_neg he]
    exact rescheduleCoreLocked_nid_gone hcnt hgone

theorem cpLoop_nid_gone (cfg : Config) (now : Int) (nid : Nat)
    (l : List (String × PendingInfo)) :
    ∀ (allocs : AllocList) (s : ClusterState) (removed : List String),
      nid ≤ s.nodeCounter → alookup nid s.nodes = none →
      alookup nid (cpLoop cfg now l allocs s removed).1.nodes = none ∧
      nid ≤ (cpLoop cfg now l allocs s removed).1.nodeCounter := by
  induction l with
  | nil => intro allocs s removed hc hg; exact ⟨hg, hc⟩
  | cons q rest ih =>
    intro allocs s removed hc hg
    obtain ⟨pid, info⟩ := q
    simp only [cpLoop]
    by_cases hf : allocs.any (fun p => fitsB info.cpu_request p.2)
    · rw [if_pos hf]
      obtain ⟨hg2, hc2⟩ :=
        @reschedulePodLocked_nid_gone cfg now s pid info.cpu_request nid hc hg
      by_cases hr : (reschedulePodLocked cfg now s pid info.cpu_request).1 = true
      · rw [if_pos hr]
        exact ih _ _ _ hc2 hg2
      · rw [if_neg hr]
        exact ih _ _ _ hc2 hg2
    · rw [if_neg hf]
      exact ih _ _ _ hc hg

theorem check_pending_nid_gone {cfg : Config} {now : Int} {s : ClusterState}
    {nid : Nat} (hcnt : nid ≤ s.nodeCounter) (hgone : alookup nid s.nodes = none) :
    alookup nid (check_pending_pods cfg now s).nodes = none ∧
    nid ≤ (check_pending_pods cfg now s).nodeCounter := by
  unfold check_pending_pods
  dsimp only
  split
  · exact ⟨hgone, hcnt⟩
  · exact cpLoop_nid_gone cfg now nid
      (List.insertionSort pendingLe s.pendingPods) (computeAllocations s) s [] hcnt hgone

theorem add_node_nid_gone {cfg : Config} {now cores : Int} {s : ClusterState}
    {nid : Nat} (hcnt : nid ≤ s.nodeCounter) (hgone : alookup nid s.nodes = none) :
    alookup nid (add_node cfg now s cores).1.nodes = none ∧
    nid ≤ (add_node cfg now s cores).1.nodeCounter := by
  obtain ⟨hg2, hc2⟩ := @addNodeBasic_nid_gone now cores s nid hcnt hgone
  exact check_pending_nid_gone hc2 hg2

theorem rescheduleCore_nid_gone {cfg : Config} {now : Int} {s : ClusterState}
    {pid : String} {req : Int} {nid : Nat}
    (hcnt : nid ≤ s.nodeCounter) (hgone : alookup nid s.nodes = none) :
    alookup nid (rescheduleCore cfg now s pid req).2.nodes = none ∧
    nid ≤ (rescheduleCore cfg now s pid req).2.nodeCounter := by
  unfold rescheduleCore
  dsimp only
  split
  · split
    next s2 h2 =>
      obtain ⟨hn, hc⟩ := commitPlace_nodes h2
      rw [hn, hc]
      exact ⟨hgone, hcnt⟩
    next => exact ⟨hgone, hcnt⟩
  · split
    · split
      next s3 h3 =>
        obtain ⟨hn, hc⟩ := commitPlace_nodes h3
        rw [hn, hc]
        exact add_node_nid_gone hcnt hgone
      next => exact add_node_nid_gone hcnt hgone
    · exact ⟨hgone, hcnt⟩

theorem reschedule_nid_gone {cfg : Config} {now : Int} {s : ClusterState}
    {pid : String} {req : Int} {nid : Nat}
    (hcnt : nid ≤ s.nodeCounter) (hgone : alookup nid s.nodes = none) :
    alookup nid (reschedule_pod cfg now s pid req).2.nodes = none ∧
    nid ≤ (reschedule_pod cfg now s pid req).2.nodeCounter := by
  unfold reschedule_pod
  by_cases he : s.nodes.isEmpty
  · rw [if_pos he]
    by_cases hA : cfg.AUTO_SCALE
    · rw [if_pos hA]
      obtain ⟨hg1, hc1⟩ :=
        @add_node_nid_gone cfg now cfg.DEFAULT_NODE_CAPACITY s nid hcnt hgone
      exact rescheduleCore_nid_gone hc1 hg1
    · rw [if_neg hA]
      exact ⟨hgone, hcnt⟩
  · rw [if_neg he]
    exact rescheduleCore_nid_gone hcnt hgone

theorem eq_of_key_eq_nodup {α β : Type} [DecidableEq α] {l : List (α × β)}
    (h : (l.map Prod.fst).Nodup) {p q : α × β} (hp : p ∈ l) (hq : q ∈ l)
    (hk : p.1 = q.1) : p = q := by
  induction l with
  | nil => simp at hp
  | cons x rest ih =>
    simp only [List.map_cons, List.nodup_cons] at h
    rcases List.mem_cons.1 hp with h1 | h1 <;> rcases List.mem_cons.1 hq with h2 | h2
    · rw [h1, h2]
    · exfalso
      refine h.1 ?_
      rw [← h1, hk]
      exact List.mem_map.2 ⟨q, h2, rfl⟩
    · exfalso
      refine h.1 ?_
      rw [← h2, ← hk]
      exact List.mem_map.2 ⟨p, h1, rfl⟩
    · exact ih h.2 h1 h2

theorem pending_enqueue_fold_frame (now : Int) (nid : Nat)
    (pods : List (String × Int)) (s : ClusterState) (pid : String)
    (h : pid ∉ pods.map Prod.fst) :
    alookup pid ((pods.foldl (fun st p => enqueuePending now st p.1 p.2 nid) s)).pendingPods
      = alookup pid s.pendingPods := by
  induction pods generalizing s with
  | nil => rfl
  | cons q rest ih =>
    simp only [List.map_cons, List.mem_cons, not_or] at h
    simp only [List.foldl_cons]
    rw [ih _ h.2]
    exact alookup_aset_ne _ _ (fun h2 => h.1 h2.symm)

theorem pending_enqueue_fold (now : Int) (nid : Nat)
    (pods : List (String × Int)) (s : ClusterState)
    (hnd : (pods.map Prod.fst).Nodup) :
    ∀ pr ∈ pods,
      alookup pr.1 ((pods.foldl (fun st p => enqueuePending now st p.1 p.2 nid) s)).pendingPods
        = some ⟨pr.2, nid, now⟩ := by
  induction pods generalizing s with
  | nil => intro pr hpr; simp at hpr
  | cons q rest ih =>
    intro pr hpr
    simp only [List.map_cons, List.nodup_cons] at hnd
    simp only [List.foldl_cons]
    rcases List.mem_cons.1 hpr with h | h
    · rw [h]
      rw [pending_enqueue_fold_frame now nid rest _ q.1 hnd.1]
      exact alookup_aset_self _ _ _
    · exact ih _ hnd.2 pr h

theorem enqueuePending_pendingPods (now : Int) (s : ClusterState) (pid : String)
    (req : Int) (origin : Nat) :
    (enqueuePending now s pid req origin).pendingPods
      = aset pid ⟨req, origin, now⟩ s.pendingPods := rfl

theorem enqueuePending_nodes (now : Int) (s : ClusterState) (pid : String)
    (req : Int) (origin : Nat) :
    (enqueuePending now s pid req origin).nodes = s.nodes := rfl

theorem enqueuePending_nodeCounter (now : Int) (s : ClusterState) (pid : String)
    (req : Int) (origin : Nat) :
    (enqueuePending now s pid req origin).nodeCounter = s.nodeCounter := rfl

theorem rnLoop_failed_mono (cfg : Config) (now : Int) (origin : Nat)
    (l : List (String × Int)) :
    ∀ (allocs : AllocList) (s : ClusterState) (failed resched : List PodRef),
      ∀ f ∈ failed, f ∈ (rnLoop cfg now origin l allocs s failed resched).2.1 := by
  induction l with
  | nil => intro allocs s failed resched f hf; exact hf
  | cons q rest ih =>
    intro allocs s failed resched f hf
    obtain ⟨pid, req⟩ := q
    simp only [rnLoop]
    by_cases hf2 : allocs.any (fun p => fitsB req p.2)
    · rw [if_pos hf2]
      by_cases hr : (reschedule_pod cfg now s pid req).1 = true
      · rw [if_pos hr]
        exact ih _ _ _ _ f hf
      · rw [if_neg hr]
        exact ih _ _ _ _ f (List.mem_append.2 (Or.inl hf))
    · rw [if_neg hf2]
      exact ih _ _ _ _ f (List.mem_append.2 (Or.inl hf))

theorem rnLoop_nid_gone (cfg : Config) (now : Int) (origin nid : Nat)
    (l : List (String × Int)) :
    ∀ (allocs : AllocList) (s : ClusterState) (failed resched : List PodRef),
      nid ≤ s.nodeCounter → alookup nid s.nodes = none →
      alookup nid (rnLoop cfg now origin l allocs s failed resched).1.nodes = none ∧
      nid ≤ (rnLoop cfg now origin l allocs s failed resched).1.nodeCounter := by
  induction l with
  | nil => intro allocs s failed resched hc hg; exact ⟨hg, hc⟩
  | cons q rest ih =>
    intro allocs s failed resched hc hg
    obtain ⟨pid, req⟩ := q
    simp only [rnLoop]
    by_cases hf2 : allocs.any (fun p => fitsB req p.2)
    · rw [if_pos hf2]
      obtain ⟨hg2, hc2⟩ := @reschedule_nid_gone cfg now s pid req nid hc hg
      by_cases hr : (reschedule_pod cfg now s pid req).1 = true
      · rw [if_pos hr]
        exact ih _ _ _ _ hc2 hg2
      · rw [if_neg hr]
        refine ih _ _ _ _ ?_ ?_
        · rw [enqueuePending_nodeCounter]
          exact hc2
        · rw [enqueuePending_nodes]
          exact hg2
    · rw [if_neg hf2]
      refine ih _ _ _ _ ?_ ?_
      · rw [enqueuePending_nodeCounter]
        exact hc
      · rw [enqueuePending_nodes]
        exact hg

theorem rnLoop_pending (cfg : Config) (now : Int) (origin : Nat)
    (hAS : cfg.AUTO_SCALE = false) (l : List (String × Int)) :
    ∀ (allocs : AllocList) (s : ClusterState) (failed resched : List PodRef),
      (l.map Prod.fst).Nodup →
      (∀ f ∈ failed, (f : PodRef).pod_id ∉ l.map Prod.fst) →
      (∀ f ∈ failed, alookup (f : PodRef).pod_id s.pendingPods
          = some ⟨f.cpu_request, origin, now⟩) →
      ∀ f ∈ (rnLoop cfg now origin l allocs s failed resched).2.1,
        alookup (f : PodRef).pod_id
            (rnLoop cfg now origin l allocs s failed resched).1.pendingPods
          = some ⟨f.cpu_request, origin, now⟩ := by
  induction l with
  | nil => intro allocs s failed resched _ _ hP f hf; exact hP f hf
  | cons q rest ih =>
    intro allocs s failed resched hnd hdis hP f hf
    obtain ⟨pid, req⟩ := q
    simp only [List.map_cons, List.nodup_cons] at hnd
    simp only [rnLoop] at hf ⊢
    by_cases hfit : allocs.any (fun p => fitsB req p.2)
    · rw [if_pos hfit] at hf ⊢
      by_cases hr : (reschedule_pod cfg now s pid req).1 = true
      · rw [if_pos hr] at hf ⊢
        refine ih _ _ _ _ hnd.2 ?_ ?_ f hf
        · intro g hg
          have h3 := hdis g hg
          simp only [List.map_cons, List.mem_cons, not_or] at h3
          exact h3.2
        · intro g hg
          rw [reschedule_pendingPods hAS]
          exact hP g hg
      · rw [if_neg hr] at hf ⊢
        refine ih _ _ _ _ hnd.2 ?_ ?_ f hf
        · intro g hg
          rcases List.mem_append.1 hg with h | h
          · have h3 := hdis g h
            simp only [List.map_cons, List.mem_cons, not_or] at h3
            exact h3.2
          · rw [List.mem_singleton.1 h]
            exact hnd.1
        · intro g hg
          rw [enqueuePending_pendingPods]
          rcases List.mem_append.1 hg with h | h
          · have hne2 : g.pod_id ≠ pid := by
              have h3 := hdis g h
              simp only [List.map_cons, List.mem_cons, not_or] at h3
              exact h3.1
            rw [alookup_aset_ne _ _ (fun h2 => hne2 h2.symm)]
            rw [reschedule_pendingPods hAS]
            exact hP g h
          · rw [List.mem_singleton.1 h]
            exact alookup_aset_self _ _ _
    · rw [if_neg hfit] at hf ⊢
      refine ih _ _ _ _ hnd.2 ?_ ?_ f hf
      · intro g hg
        rcases List.mem_append.1 hg with h | h
        · have h3 := hdis g h
          simp only [List.map_cons, List.mem_cons, not_or] at h3
          exact h3.2
        · rw [List.mem_singleton.1 h]
          exact hnd.1
      · intro g hg
        rw [enqueuePending_pendingPods]
        rcases List.mem_append.1 hg with h | h
        · have hne2 : g.pod_id ≠ pid := by
            have h3 := hdis g h
            simp only [List.map_cons, List.mem_cons, not_or] at h3
            exact h3.1
          rw [alookup_aset_ne _ _ (fun h2 => hne2 h2.symm)]
          exact hP g h
        · rw [List.mem_singleton.1 h]
          exact alookup_aset_self _ _ _

/-- Claim C6 counterexample, to the end-state pending clause with
auto-scaling enabled.  Removing node_2 from `sC6` at time 11: big(4)
exceeds the maximum available 3, so it is enqueued to pending and
reported failed; then p(2) is rescheduled onto node_3 but attributed to
node_1 by `find_pod_node`, leaving the running totals stale; s(3) then
passes the loop's fit pre-check, its fresh snapshot yields `NoFit`, and
the auto-scale `add_node` runs — its pending-queue drain places `big`
on the new node_4 and dequeues it.  The removal returns with `big` in
the failed report but absent from the pending queue (only `s` remains
pending, and `big` sits on node_4's worker). -/
theorem C6_remove_node_autoscale_counterexample :
    (PodRef.mk "big" 4) ∈ (remove_node cfgAS 11 sC6 2).1.2.1 ∧
    alookup "big" (remove_node cfgAS 11 sC6 2).2.pendingPods = none ∧
    alookup "s" (remove_node cfgAS 11 sC6 2).2.pendingPods = some ⟨3, 2, 11⟩ ∧
    alookup "big" ((alookup 4 (remove_node cfgAS 11 sC6 2).2.workers).getD ⟨0, []⟩).pods
      = some 4 := by
  decide

/-- Claim C6, amended.  During `RemoveNode` of a non-empty node with at
least one remaining node, each displaced pod whose `cpu_request` exceeds
the maximum available capacity across all remaining nodes is recorded as
a failed reschedule; the remaining pods are handed to the reschedule
loop as the ascending-`cpu_request` sort (a sorted permutation) of the
possibly-fit partition, against running availability totals; the removal
always reports success with the node gone from the registry.  Every
failed pod — definite or loop failure — is enqueued to the pending queue
keyed by its id with `origin_node` the removed node and the removal
timestamp, and with auto-scaling disabled it still sits there when the
removal returns.  (With auto-scaling enabled that last part can fail: a
`NoFit` reschedule inside the removal calls the full `add_node`, whose
pending-queue drain may re-place and dequeue an already-failed pod
before the removal returns — see the counterexample.) -/
theorem C6_remove_node_partition (cfg : Config) (now : Int) (s : ClusterState)
    (nid : Nat)
    (hne : removeNodeDisplaced s nid ≠ [])
    (hallocs : computeAllocations (removeNodeBase s nid) ≠ [])
    (hnd : ((removeNodeDisplaced s nid).map Prod.fst).Nodup)
    (hnodes : (s.nodes.map Prod.fst).Nodup)
    (hcnt : nid ≤ s.nodeCounter) :
    (∀ pr ∈ removeNodeDisplaced s nid,
      maxAvailOf (computeAllocations (removeNodeBase s nid)) < pr.2 →
      (PodRef.mk pr.1 pr.2) ∈ (remove_node cfg now s nid).1.2.1) ∧
    (List.insertionSort reqLe ((removeNodeDisplaced s nid).filter
        (fun p => ¬ (maxAvailOf (computeAllocations (removeNodeBase s nid)) < p.2)))).Pairwise
      reqLe ∧
    (List.insertionSort reqLe ((removeNodeDisplaced s nid).filter
        (fun p => ¬ (maxAvailOf (computeAllocations (removeNodeBase s nid)) < p.2)))).Perm
      ((removeNodeDisplaced s nid).filter
        (fun p => ¬ (maxAvailOf (computeAllocations (removeNodeBase s nid)) < p.2))) ∧
    (remove_node cfg now s nid).1.1 = true ∧
    alookup nid (remove_node cfg now s nid).2.nodes = none ∧
    (cfg.AUTO_SCALE = false →
      ∀ f ∈ (remove_node cfg now s nid).1.2.1,
        alookup (f : PodRef).pod_id (remove_node cfg now s nid).2.pendingPods
          = some ⟨f.cpu_request, nid, now⟩) := by
  have h1 : ¬ ((removeNodeDisplaced s nid).isEmpty = true) := by
    rw [List.isEmpty_iff]
    exact hne
  have h2 : ¬ ((computeAllocations (removeNodeBase s nid)).isEmpty = true) := by
    rw [List.isEmpty_iff]
    exact hallocs
  -- names for the internal pieces of remove_node
  have hcanBeKeys : (((removeNodeDisplaced s nid).filter
      (fun p => ¬ (maxAvailOf (computeAllocations (removeNodeBase s nid)) < p.2))).map
        Prod.fst).Nodup :=
    ((List.filter_sublist _).map Prod.fst).nodup hnd
  have hdefKeys : (((removeNodeDisplaced s nid).filter
      (fun p => maxAvailOf (computeAllocations (removeNodeBase s nid)) < p.2)).map
        Prod.fst).Nodup :=
    ((List.filter_sublist _).map Prod.fst).nodup hnd
  have hpermSort := List.perm_insertionSort reqLe
    ((removeNodeDisplaced s nid).filter
      (fun p => ¬ (maxAvailOf (computeAllocations (removeNodeBase s nid)) < p.2)))
  have hsortKeys : ((List.insertionSort reqLe ((removeNodeDisplaced s nid).filter
      (fun p => ¬ (maxAvailOf (computeAllocations (removeNodeBase s nid)) < p.2)))).map
        Prod.fst).Nodup :=
    ((hpermSort.map Prod.fst).nodup_iff).2 hcanBeKeys
  -- the state after enqueueing the definite failures
  have hfold := nodesCounter_enqueue_fold now nid
    ((removeNodeDisplaced s nid).filter
      (fun p => maxAvailOf (computeAllocations (removeNodeBase s nid)) < p.2))
    (removeNodeBase s nid)
  have hgone2 : alookup nid (((removeNodeDisplaced s nid).filter
      (fun p => maxAvailOf (computeAllocations (removeNodeBase s nid)) < p.2)).foldl
        (fun st p => enqueuePending now st p.1 p.2 nid) (removeNodeBase s nid)).nodes
      = none := by
    rw [hfold.1]
    exact alookup_aerase_self nid hnodes
  have hcnt2 : nid ≤ (((removeNodeDisplaced s nid).filter
      (fun p => maxAvailOf (computeAllocations (removeNodeBase s nid)) < p.2)).foldl
        (fun st p => enqueuePending now st p.1 p.2 nid) (removeNodeBase s nid)).nodeCounter := by
    rw [hfold.2]
    exact hcnt
  have hP0 : ∀ f ∈ ((removeNodeDisplaced s nid).filter
      (fun p => maxAvailOf (computeAllocations (removeNodeBase s nid)) < p.2)).map
        (fun p => (⟨p.1, p.2⟩ : PodRef)),
      alookup (f : PodRef).pod_id (((removeNodeDisplaced s nid).filter
        (fun p => maxAvailOf (computeAllocations (removeNodeBase s nid)) < p.2)).foldl
          (fun st p => enqueuePending now st p.1 p.2 nid) (removeNodeBase s nid)).pendingPods
        = some ⟨f.cpu_request, nid, now⟩ := by
    intro f hf
    obtain ⟨pr, hpr, hfe⟩ := List.mem_map.1 hf
    rw [← hfe]
    exact pending_enqueue_fold now nid _ _ hdefKeys pr hpr
  have hdis0 : ∀ f ∈ ((removeNodeDisplaced s nid).filter
      (fun p => maxAvailOf (computeAllocations (removeNodeBase s nid)) < p.2)).map
        (fun p => (⟨p.1, p.2⟩ : PodRef)),
      (f : PodRef).pod_id ∉ (List.insertionSort reqLe ((removeNodeDisplaced s nid).filter
        (fun p => ¬ (maxAvailOf (computeAllocations (removeNodeBase s nid)) < p.2)))).map
          Prod.fst := by
    intro f hf hmem
    obtain ⟨pr, hpr, hfe⟩ := List.mem_map.1 hf
    have hmem2 : (f : PodRef).pod_id ∈ ((removeNodeDisplaced s nid).filter
        (fun p => ¬ (maxAvailOf (computeAllocations (removeNodeBase s nid)) < p.2))).map
          Prod.fst := ((hpermSort.map Prod.fst).mem_iff).1 hmem
    obtain ⟨q, hq, hqe⟩ := List.mem_map.1 hmem2
    obtain ⟨hprmem, hprcond⟩ := List.mem_filter.1 hpr
    obtain ⟨hqmem, hqcond⟩ := List.mem_filter.1 hq
    have hkeq : pr.1 = q.1 := by
      rw [← hfe] at hqe
      exact hqe.symm
    have hpq : pr = q := eq_of_key_eq_nodup hnd hprmem hqmem hkeq
    rw [decide_eq_true_eq] at hprcond hqcond
    rw [hpq] at hprcond
    exact hqcond hprcond
  unfold remove_node
  dsimp only
  rw [if_neg h1, if_neg h2]
  refine ⟨?_, List.sorted_insertionSort reqLe _, hpermSort, rfl, ?_, ?_⟩
  · intro pr hpr hbig
    refine rnLoop_failed_mono cfg now nid _ _ _ _ _ _ ?_
    exact List.mem_map.2 ⟨pr, List.mem_filter.2 ⟨hpr, by rw [decide_eq_true_eq]; exact hbig⟩, rfl⟩
  · exact (rnLoop_nid_gone cfg now nid nid _ _ _ _ _ hcnt2 hgone2).1
  · intro hAS
    exact rnLoop_pending cfg now nid hAS _ _ _ _ _ hsortKeys hdis0 hP0

/-- Witness for C6: removing `node_1` (hosting b(3), a(1)) with only
`node_2` (capacity 2) remaining: b exceeds the maximum available 2, is
reported failed and pending with origin node_1, and the removal reports
success. -/
theorem C6_remove_node_partition_witness :
    (PodRef.mk "b" 3) ∈ (remove_node cfgFF 7 sRemove 1).1.2.1 ∧
    (remove_node cfgFF 7 sRemove 1).1.1 = true ∧
    alookup 1 (remove_node cfgFF 7 sRemove 1).2.nodes = none ∧
    alookup "b" (remove_node cfgFF 7 sRemove 1).2.pendingPods
      = some ⟨3, 1, 7⟩ := by
  have h := C6_remove_node_partition cfgFF 7 sRemove 1
    (by decide) (by decide) (by decide) (by decide) (by decide)
  refine ⟨?_, h.2.2.2.1, h.2.2.2.2.1, ?_⟩
  · exact h.1 ("b", 3) (by decide) (by decide)
  · exact h.2.2.2.2.2 rfl (PodRef.mk "b" 3)
      (h.1 ("b", 3) (by decide) (by decide))

end KubeSim
